import Mathlib

/-!
# Handler presence check (`checks/handler_check.go`)

A shallow embedding of the handler check of the New Relic Lambda extension and
the properties of it that its specification states.

Go strings are byte sequences; they are embedded as lists of `Char`, one list
element per string element.  Every operation below except `strings_ToLower`
only compares elements with the ASCII bytes `/` and `.`, so the embedding does
not depend on how the elements are read.

A Go function that can abort with a run-time panic returns `Option`; `none` is
the panic.  A function that reads the environment, probes the filesystem or
writes to the log runs in `Eff`, which records these interactions in order.
-/

namespace HandlerCheck

/-- A Go `string`. -/
abbrev GoString := List Char

/-! ## Standard library: `strings`, `fmt`, `path/filepath` (on Linux) -/

/-- The function `strings.ToLower`.  Go lower-cases by the Unicode tables and writes
U+FFFD for a byte that is not valid UTF-8; the only runes outside ASCII whose
lower case is an ASCII letter are U+0130 (to `i`) and U+212A (to `k`).  The two
uses in this package compare the result with `true` and with the prefix
`aws_lambda`, which contain neither letter, so on these comparisons lower-casing
the ASCII letters alone gives the same verdict as Go. -/
def strings_ToLower (s : GoString) : GoString :=
  s.map Char.toLower

/-- The function `strings.HasPrefix`. -/
def strings_HasPrefix (s pre : GoString) : Bool :=
  pre.isPrefixOf s

/-- Search of `strings.Index`, counting from offset `i`: the offset of the first
occurrence of `sub` in `s`, or `-1`. -/
def strings_Index_from (sub : GoString) : GoString → Nat → Int
  | [], i => if sub.isPrefixOf [] then (i : Int) else -1
  | c :: cs, i =>
    if sub.isPrefixOf (c :: cs) then (i : Int) else strings_Index_from sub cs (i + 1)

/-- The function `strings.Index`: the index of the first instance of `sub` in `s`, or
`-1` if `sub` is not present in `s`. -/
def strings_Index (s sub : GoString) : Int :=
  strings_Index_from sub s 0

/-- The function `strings.Split` at a one-byte separator `sep`: the substrings between
the occurrences of `sep`.  The result always has one more element than `s` has
separators; for the empty string it is one empty string. -/
def strings_Split (s : GoString) (sep : Char) : List GoString :=
  match s with
  | [] => [[]]
  | c :: cs =>
    if c = sep then [] :: strings_Split cs sep
    else
      match strings_Split cs sep with
      | [] => [[c]]
      | seg :: rest => (c :: seg) :: rest

/-- The function `strings.Join`. -/
def strings_Join : List GoString → GoString → GoString
  | [], _ => []
  | [a], _ => a
  | a :: b :: rest, sep => a ++ sep ++ strings_Join (b :: rest) sep

/-- A slice expression `s[0:hi]` on a string: panics unless `0 ≤ hi ≤ len(s)`. -/
def sliceTo (s : GoString) (hi : Int) : Option GoString :=
  if 0 ≤ hi ∧ hi ≤ (s.length : Int) then some (s.take hi.toNat) else none

/-- A slice expression `s[:len(s)-1]` on a slice of strings: panics when `s` is
empty (the bound is then `-1`). -/
def sliceDropLast (s : List GoString) : Option (List GoString) :=
  if s.length = 0 then none else some (s.take (s.length - 1))

/-- An index expression `s[0]` on a slice of strings: panics when `s` is empty. -/
def indexFirst (s : List GoString) : Option GoString :=
  s.head?

/-- The function `fmt.Sprintf` for a format whose only verb is `%s`, with string operands.
A verb without operand prints `%!s(MISSING)`.  The calls in this package pass as
many operands as the format has verbs. -/
def fmt_Sprintf : GoString → List GoString → GoString
  | [], _ => []
  | '%' :: 's' :: rest, a :: as => a ++ fmt_Sprintf rest as
  | '%' :: 's' :: rest, [] => "%!s(MISSING)".toList ++ fmt_Sprintf rest []
  | c :: rest, as => c :: fmt_Sprintf rest as

/-- The function `filepath.Base`: the last element of `path`.  Trailing separators are
removed first; the empty path gives `.`, a path of separators only gives `/`. -/
def filepath_Base (path : GoString) : GoString :=
  if path = [] then ['.']
  else
    let stripped := (path.reverse.dropWhile (fun c => c == '/')).reverse
    let last := (stripped.reverse.takeWhile (fun c => c != '/')).reverse
    if last = [] then ['/'] else last

/-- The output of `filepath.Clean` while it runs: the path elements written so
far, the most recent first, and how many leading elements a `..` may not
remove (Go's `dotdot` mark). -/
structure CleanBuf where
  out : List GoString
  dotdot : Nat

/-- One path element read by `filepath.Clean`.  Empty elements and `.` are
dropped; `..` removes the last element written when there is one above the
mark, is written itself when the path is not rooted, and is dropped at the
root; any other element is written. -/
def cleanStep (rooted : Bool) (b : CleanBuf) (e : GoString) : CleanBuf :=
  if e = [] ∨ e = ['.'] then b
  else if e = ['.', '.'] then
    if b.dotdot < b.out.length then { b with out := b.out.tail }
    else if rooted then b
    else { out := e :: b.out, dotdot := b.out.length + 1 }
  else { b with out := e :: b.out }

/-- The function `filepath.Clean`: the shortest path name equivalent to `path` by purely
lexical processing. -/
def filepath_Clean (path : GoString) : GoString :=
  if path = [] then ['.']
  else
    let rooted := path.head? == some '/'
    let b := (strings_Split path '/').foldl (cleanStep rooted) ⟨[], 0⟩
    let body := strings_Join b.out.reverse ['/']
    if rooted then '/' :: body
    else if body = [] then ['.'] else body

/-- The function `filepath.Join`: joins the elements from the first non-empty one on
with `/` and cleans the result; all elements empty gives the empty string. -/
def filepath_Join : List GoString → GoString
  | [] => []
  | e :: es => if e = [] then filepath_Join es else filepath_Clean (strings_Join (e :: es) ['/'])

/-! ## The split helpers -/

/-- The generic split, `removePathMethodName`. -/
def removePathMethodName (p : GoString) : Option GoString := do
  let s := strings_Split p '.'
  let init ← sliceDropLast s
  pure (strings_Join init ['/'])

/-- The Node split, `removePathMethodNameNode`. -/
def removePathMethodNameNode (p : GoString) : Option GoString := do
  let mh := filepath_Base p
  let mr ← sliceTo p (strings_Index p mh)
  let s := strings_Split mh '.'
  let m ← indexFirst s
  pure (filepath_Join [mr, m])

/-! ## The process: environment, filesystem, log -/

/-- What the process is observed to do. -/
inductive Event
  | getenv (name : GoString)
  | stat (path : GoString)
  | logln (args : List GoString)
  deriving DecidableEq

/-- The state of the process that the check reads.  `PathExists` stands for
`util.PathExists` of the repository (a wrapper of `os.Stat`), which decides from
the filesystem whether a path exists; a relative path is resolved against the
working directory of the process. -/
structure World where
  env : GoString → Option GoString
  PathExists : GoString → Bool
  handlerPath : GoString

/-- The result of running a function: the interactions it performed, in order,
and the value it returned, `none` when it panicked. -/
structure Outcome (α : Type) where
  trace : List Event
  value : Option α
  deriving DecidableEq

/-- A function of the package that interacts with the process. -/
def Eff (α : Type) : Type := World → Outcome α

/-- Returning a value performs no interaction. -/
def Eff.pure {α : Type} (a : α) : Eff α :=
  fun _ => ⟨[], some a⟩

/-- Sequencing: the second part runs after the first unless the first
panicked. -/
def Eff.bind {α β : Type} (x : Eff α) (f : α → Eff β) : Eff β :=
  fun w =>
    match x w with
    | ⟨t, none⟩ => ⟨t, none⟩
    | ⟨t, some a⟩ => ⟨t ++ (f a w).trace, (f a w).value⟩

instance : Monad Eff where
  pure := Eff.pure
  bind := Eff.bind

/-- Running a function that may only panic. -/
def Eff.ofOption {α : Type} (o : Option α) : Eff α :=
  fun _ => ⟨[], o⟩

/-- The function `os.Getenv`: the value of the variable, empty when it is not set. -/
def os_Getenv (name : GoString) : Eff GoString :=
  fun w => ⟨[Event.getenv name], some ((w.env name).getD [])⟩

/-- The function `util.PathExists`: one probe of the filesystem. -/
def util_PathExists (path : GoString) : Eff Bool :=
  fun w => ⟨[Event.stat path], some (w.PathExists path)⟩

/-- The function `util.Logln`: one line written to the log. -/
def util_Logln (args : List GoString) : Eff Unit :=
  fun _ => ⟨[Event.logln args], some ()⟩

/-- Reading the package variable `handlerPath`. -/
def get_handlerPath : Eff GoString :=
  fun w => ⟨[], some w.handlerPath⟩

/-- Go's `a || b`: `b` is evaluated only when `a` is false. -/
def orElse (a : Bool) (b : Eff Bool) : Eff Bool :=
  if a then Eff.pure true else b

/-! ## Data of the package -/

/-- The fields of `config.Configuration` that the check reads. -/
structure Configuration where
  NRHandler : GoString
  TestingOverride : Bool

/-- The field of `api.RegistrationResponse` that the check reads. -/
structure RegistrationResponse where
  Handler : GoString

/-- The fields of `runtimeConfig` that the check reads. -/
structure runtimeConfig where
  language : GoString
  wrapperName : GoString
  fileType : GoString

/-- The struct `handlerConfigs`; `conf` is a non-nil pointer. -/
structure handlerConfigs where
  handlerName : GoString
  conf : Configuration

/-- A Go `error` value. -/
inductive GoError
  | nil
  | errorf (msg : GoString)
  deriving DecidableEq

/-- A `context.Context`; the check ignores it. -/
abbrev Context := Unit

/-! ## The check -/

/-- The function `isDocker`. -/
def isDocker : Eff Bool := do
  let aws_runtime := strings_ToLower (← os_Getenv "AWS_EXECUTION_ENV".toList)
  pure (!strings_HasPrefix aws_runtime "aws_lambda".toList)

/-- The function `pathFormatter`. -/
def pathFormatter (functionHandler : GoString) (fileType : GoString) : Eff GoString := do
  let p := fmt_Sprintf "%s/%s.%s".toList [← get_handlerPath, functionHandler, fileType]
  pure p

/-- The method `runtimeConfig.getTrueHandler`. -/
def getTrueHandler (r : runtimeConfig) (h : handlerConfigs) : Eff GoString := do
  if !h.conf.TestingOverride then
    let esm := strings_ToLower (← os_Getenv "NEW_RELIC_USE_ESM".toList)
    if esm = "true".toList then
      return h.handlerName
    if ← util_PathExists "/.dockerenv".toList then
      return h.handlerName
  if h.handlerName ≠ r.wrapperName then
    util_Logln ["Warning: handler not set to New Relic layer wrapper".toList, r.wrapperName]
    return h.handlerName
  return h.conf.NRHandler

/-- The method `runtimeConfig.check`.  `Node` is the runtime tag of Node, a constant
of the package declared with the runtime registry. -/
def check (Node : GoString) (r : runtimeConfig) (h : handlerConfigs) : Eff Bool := do
  if !h.conf.TestingOverride then
    let esm := strings_ToLower (← os_Getenv "NEW_RELIC_USE_ESM".toList)
    if esm = "true".toList then
      return true
    if ← isDocker then
      return true
  let functionHandler ← getTrueHandler r h
  if r.language = Node then
    let p ← Eff.ofOption (removePathMethodNameNode functionHandler)
    let pJS ← pathFormatter p "js".toList
    let cJS ← pathFormatter p "cjs".toList
    let pMJS ← pathFormatter p "mjs".toList
    if ← (do orElse (← orElse (← util_PathExists pJS) (util_PathExists pMJS)) (util_PathExists cJS)) then
      return true
    util_PathExists p
  else
    let p ← Eff.ofOption (removePathMethodName functionHandler)
    let p ← pathFormatter p r.fileType
    util_PathExists p

/-- The function `handlerCheck`. -/
def handlerCheck (Node : GoString) (_ctx : Context) (conf : Configuration)
    (reg : RegistrationResponse) (r : runtimeConfig) : Eff GoError := do
  if r.language ≠ [] then
    let h : handlerConfigs := { handlerName := reg.Handler, conf := conf }
    if !(← check Node r h) then
      return GoError.errorf
        (fmt_Sprintf "missing handler file %s (NEW_RELIC_LAMBDA_HANDLER=%s)".toList
          [h.handlerName, conf.NRHandler])
  return GoError.nil

/-! ## Notions used to state the properties -/

/-- The reads of the environment that `check` performs before it resolves the
handler. -/
def bypassTrace (h : handlerConfigs) : List Event :=
  if h.conf.TestingOverride then []
  else [Event.getenv "NEW_RELIC_USE_ESM".toList, Event.getenv "AWS_EXECUTION_ENV".toList]

/-- The value `v` begins with `pre` when letter case is ignored. -/
def beginsWithFold (v pre : GoString) : Prop :=
  (v.take pre.length).map Char.toLower = pre.map Char.toLower

instance (v pre : GoString) : Decidable (beginsWithFold v pre) :=
  inferInstanceAs (Decidable ((v.take pre.length).map Char.toLower = pre.map Char.toLower))

/-- No bypass of `check` applies: `TestingOverride` is set, or `NEW_RELIC_USE_ESM`
is not `true` in lower case and `AWS_EXECUTION_ENV` begins with `aws_lambda`
when case is ignored. -/
def noBypass (h : handlerConfigs) (w : World) : Prop :=
  h.conf.TestingOverride = true ∨
    (strings_ToLower ((w.env "NEW_RELIC_USE_ESM".toList).getD []) ≠ "true".toList ∧
      beginsWithFold ((w.env "AWS_EXECUTION_ENV".toList).getD []) "aws_lambda".toList)

instance (h : handlerConfigs) (w : World) : Decidable (noBypass h w) :=
  inferInstanceAs (Decidable (_ ∨ _))

/-- The candidate path of a split result `P` with extension `E`, under the
deployment root of `w`. -/
def candidate (w : World) (P E : GoString) : GoString :=
  w.handlerPath ++ '/' :: (P ++ '.' :: E)

/-- The probes of the Node branch of `check` for the split result `P`, in
order; each probe is made only when the ones before it found nothing. -/
def nodeProbes (w : World) (P : GoString) : List Event :=
  Event.stat (candidate w P "js".toList) ::
    if w.PathExists (candidate w P "js".toList) then []
    else Event.stat (candidate w P "mjs".toList) ::
      if w.PathExists (candidate w P "mjs".toList) then []
      else Event.stat (candidate w P "cjs".toList) ::
        if w.PathExists (candidate w P "cjs".toList) then [] else [Event.stat P]

/-- The process does not run on the native platform: `AWS_EXECUTION_ENV` is
absent, empty, or does not begin with `aws_lambda` when case is ignored. -/
def notNative (w : World) : Prop :=
  match w.env "AWS_EXECUTION_ENV".toList with
  | none => True
  | some v => v = [] ∨ ¬ beginsWithFold v "aws_lambda".toList

instance (w : World) : Decidable (notNative w) := by
  unfold notNative
  split <;> infer_instance

/-- The true handler by the three-way rule of the specification: the declared
handler when `TestingOverride` is false and either `NEW_RELIC_USE_ESM` is `true`
in lower case or `/.dockerenv` exists; else the declared handler when it is not
the wrapper; else `NRHandler`. -/
def trueHandler_spec (r : runtimeConfig) (h : handlerConfigs) (w : World) : GoString :=
  if h.conf.TestingOverride = false ∧
      (strings_ToLower ((w.env "NEW_RELIC_USE_ESM".toList).getD []) = "true".toList ∨
        w.PathExists "/.dockerenv".toList = true) then h.handlerName
  else if h.handlerName ≠ r.wrapperName then h.handlerName
  else h.conf.NRHandler

/-- The directory prefix of a handler identifier: the substring up to and
including its final `/`, empty when it has no `/`. -/
def dirPrefix_spec (H : GoString) : GoString :=
  (H.reverse.dropWhile (fun c => c != '/')).reverse

/-- The basename of a handler identifier: what follows its directory prefix. -/
def basename_spec (H : GoString) : GoString :=
  (H.reverse.takeWhile (fun c => c != '/')).reverse

/-- The Node split as the specification words it: the directory prefix as
written, followed by the basename truncated at its first `.`. -/
def nodeSplit_spec (H : GoString) : GoString :=
  dirPrefix_spec H ++ (basename_spec H).takeWhile (fun c => c != '.')

/-- A runtime record for Node. -/
def exampleNode : runtimeConfig :=
  { language := "node".toList, wrapperName := "newrelic-lambda-wrapper.handler".toList,
    fileType := "js".toList }

/-- A runtime record for Python. -/
def examplePython : runtimeConfig :=
  { language := "python".toList, wrapperName := "newrelic_lambda_wrapper.handler".toList,
    fileType := "py".toList }

/-- A process on the native platform with an empty deployment bundle under
`/tmp/x/var/task`. -/
def emptyWorld : World :=
  { env := fun name =>
      if name = "AWS_EXECUTION_ENV".toList then some "AWS_Lambda_nodejs14.x".toList else none,
    PathExists := fun _ => false,
    handlerPath := "/tmp/x/var/task".toList }

/-- The world `w` with the files `files` and nothing else. -/
def withFiles (w : World) (files : List GoString) : World :=
  { w with PathExists := fun p => decide (p ∈ files) }

/-- The world `w` with the variable `name` set to `value`. -/
def withEnv (w : World) (name value : GoString) : World :=
  { w with env := fun n => if n = name then some value else w.env n }

/-- The native process of the last step of `TestCheckWithTestingOverride`: the
bundle holds `test/handler.js`. -/
def overrideWorld : World :=
  withFiles emptyWorld ["/tmp/x/var/task/test/handler.js".toList]

/-- The same bundle in a container that asks for ESM: `NEW_RELIC_USE_ESM=true`,
`AWS_EXECUTION_ENV=Docker`, and `/.dockerenv` exists. -/
def overrideWorldDocker : World :=
  withEnv (withEnv
    (withFiles emptyWorld ["/tmp/x/var/task/test/handler.js".toList, "/.dockerenv".toList])
    "AWS_EXECUTION_ENV".toList "Docker".toList) "NEW_RELIC_USE_ESM".toList "true".toList

/-- The directory prefix spelled by the segments `segs`: each segment followed
by `/`. -/
def dirOf (segs : List GoString) : GoString :=
  (segs.map (fun seg => seg ++ ['/'])).flatten

/-- A conventional directory segment: not empty, without `/`, and neither `.`
nor `..`. -/
def plainSegment (seg : GoString) : Prop :=
  seg ≠ [] ∧ '/' ∉ seg ∧ seg ≠ ['.'] ∧ seg ≠ ['.', '.']

instance (seg : GoString) : Decidable (plainSegment seg) :=
  inferInstanceAs (Decidable (_ ∧ _))

/-- The string `s` with every `.` replaced by `/`. -/
def dotsToSlashes (s : GoString) : GoString :=
  s.map (fun c => if c = '.' then '/' else c)

/-- The value the package gives `handlerPath` at start: `var handlerPath = "/var/task"`. -/
def handlerPath_default : GoString :=
  "/var/task".toList

/-- The first branch of `getTrueHandler` is taken: `TestingOverride` is false and
either `NEW_RELIC_USE_ESM` is `true` in lower case or `/.dockerenv` exists. -/
def firstBranchTaken (h : handlerConfigs) (w : World) : Prop :=
  h.conf.TestingOverride = false ∧
    (strings_ToLower ((w.env "NEW_RELIC_USE_ESM".toList).getD []) = "true".toList ∨
      w.PathExists "/.dockerenv".toList = true)

instance (h : handlerConfigs) (w : World) : Decidable (firstBranchTaken h w) :=
  inferInstanceAs (Decidable (_ ∧ _))

/-- A native process whose filesystem holds `/.dockerenv` and nothing else:
`AWS_EXECUTION_ENV=AWS_Lambda_nodejs14.x`, `NEW_RELIC_USE_ESM` not set. -/
def nativeDockerWorld : World :=
  withFiles emptyWorld ["/.dockerenv".toList]

/-! ## Running the functions -/

theorem run_pure {α : Type} (a : α) (w : World) :
    (pure a : Eff α) w = ⟨[], some a⟩ := rfl

theorem run_bind {α β : Type} (x : Eff α) (f : α → Eff β) (w : World) :
    (x >>= f) w =
      match x w with
      | ⟨t, none⟩ => ⟨t, none⟩
      | ⟨t, some a⟩ => ⟨t ++ (f a w).trace, (f a w).value⟩ := rfl

theorem isDocker_run (w : World) :
    isDocker w = ⟨[Event.getenv "AWS_EXECUTION_ENV".toList],
      some (!strings_HasPrefix (strings_ToLower ((w.env "AWS_EXECUTION_ENV".toList).getD []))
        "aws_lambda".toList)⟩ := by
  simp [isDocker, run_bind, run_pure, os_Getenv]

theorem pathFormatter_run (p e : GoString) (w : World) :
    pathFormatter p e w = ⟨[], some (w.handlerPath ++ '/' :: (p ++ '.' :: e))⟩ := by
  simp [pathFormatter, run_bind, run_pure, get_handlerPath, fmt_Sprintf]

theorem getTrueHandler_run (r : runtimeConfig) (h : handlerConfigs) (w : World) :
    getTrueHandler r h w =
      if h.conf.TestingOverride = false then
        if strings_ToLower ((w.env "NEW_RELIC_USE_ESM".toList).getD []) = "true".toList then
          ⟨[Event.getenv "NEW_RELIC_USE_ESM".toList], some h.handlerName⟩
        else if w.PathExists "/.dockerenv".toList = true then
          ⟨[Event.getenv "NEW_RELIC_USE_ESM".toList, Event.stat "/.dockerenv".toList],
            some h.handlerName⟩
        else if h.handlerName ≠ r.wrapperName then
          ⟨[Event.getenv "NEW_RELIC_USE_ESM".toList, Event.stat "/.dockerenv".toList,
            Event.logln ["Warning: handler not set to New Relic layer wrapper".toList,
              r.wrapperName]], some h.handlerName⟩
        else
          ⟨[Event.getenv "NEW_RELIC_USE_ESM".toList, Event.stat "/.dockerenv".toList],
            some h.conf.NRHandler⟩
      else if h.handlerName ≠ r.wrapperName then
        ⟨[Event.logln ["Warning: handler not set to New Relic layer wrapper".toList,
          r.wrapperName]], some h.handlerName⟩
      else ⟨[], some h.conf.NRHandler⟩ := by
  unfold getTrueHandler
  cases hT : h.conf.TestingOverride <;>
    simp [run_bind, run_pure, os_Getenv, util_PathExists, util_Logln]
  · split_ifs <;> simp_all [run_bind, run_pure, os_Getenv, util_PathExists, util_Logln]
  · split_ifs <;> simp_all [run_bind, run_pure, os_Getenv, util_PathExists, util_Logln]

theorem strings_Split_ne_nil (s : GoString) (sep : Char) : strings_Split s sep ≠ [] := by
  induction s with
  | nil => simp [strings_Split]
  | cons c cs ih =>
    unfold strings_Split
    split_ifs
    · simp
    · split <;> simp

theorem removePathMethodName_total (p : GoString) :
    removePathMethodName p =
      some (strings_Join ((strings_Split p '.').take ((strings_Split p '.').length - 1)) ['/']) := by
  have h := strings_Split_ne_nil p '.'
  simp [removePathMethodName, sliceDropLast, h]

theorem getTrueHandler_returns (r : runtimeConfig) (h : handlerConfigs) (w : World) :
    ∃ T, (getTrueHandler r h w).value = some T := by
  rw [getTrueHandler_run]
  split_ifs <;> exact ⟨_, rfl⟩

theorem hasPrefix_toLower_iff (v pre : GoString) (hpre : pre.map Char.toLower = pre) :
    strings_HasPrefix (strings_ToLower v) pre = true ↔ beginsWithFold v pre := by
  unfold strings_HasPrefix strings_ToLower beginsWithFold
  rw [List.isPrefixOf_iff_prefix, List.prefix_iff_eq_take, hpre, List.map_take]
  exact eq_comm

theorem noBypass_code (h : handlerConfigs) (w : World) (hb : noBypass h w) :
    h.conf.TestingOverride = true ∨
      (strings_ToLower ((w.env "NEW_RELIC_USE_ESM".toList).getD []) ≠ "true".toList ∧
        strings_HasPrefix (strings_ToLower ((w.env "AWS_EXECUTION_ENV".toList).getD []))
          "aws_lambda".toList = true) := by
  rcases hb with hb | ⟨h1, h2⟩
  · exact Or.inl hb
  · exact Or.inr ⟨h1, (hasPrefix_toLower_iff _ _ (by decide)).mpr h2⟩

theorem check_run_other (Node : GoString) (r : runtimeConfig) (h : handlerConfigs) (w : World)
    (hb : noBypass h w) (hl : r.language ≠ Node) (T P : GoString)
    (hT : (getTrueHandler r h w).value = some T) (hP : removePathMethodName T = some P) :
    check Node r h w =
      ⟨bypassTrace h ++ (getTrueHandler r h w).trace ++
          [Event.stat (w.handlerPath ++ '/' :: (P ++ '.' :: r.fileType))],
        some (w.PathExists (w.handlerPath ++ '/' :: (P ++ '.' :: r.fileType)))⟩ := by
  unfold check bypassTrace
  rcases noBypass_code h w hb with hb | ⟨h1, h2⟩
  · rcases hg : getTrueHandler r h w with ⟨t, v⟩
    rw [hg] at hT
    simp at hT
    subst hT
    simp [hb, hl, run_bind, run_pure, hg, hP, Eff.ofOption, pathFormatter_run, util_PathExists]
  · rcases hg : getTrueHandler r h w with ⟨t, v⟩
    rw [hg] at hT
    simp at hT
    subst hT
    simp only [String.toList, ne_eq] at h1 h2
    cases hTO : h.conf.TestingOverride <;>
      simp [hl, run_bind, run_pure, hg, hP, Eff.ofOption, pathFormatter_run, util_PathExists,
        isDocker_run, os_Getenv, h1, h2]

theorem check_run_node (Node : GoString) (r : runtimeConfig) (h : handlerConfigs) (w : World)
    (hb : noBypass h w) (hl : r.language = Node) (T P : GoString)
    (hT : (getTrueHandler r h w).value = some T) (hP : removePathMethodNameNode T = some P) :
    check Node r h w =
      ⟨bypassTrace h ++ (getTrueHandler r h w).trace ++ nodeProbes w P,
        some (w.PathExists (candidate w P "js".toList) || w.PathExists (candidate w P "mjs".toList)
          || w.PathExists (candidate w P "cjs".toList) || w.PathExists P)⟩ := by
  unfold check bypassTrace nodeProbes candidate
  rcases hg : getTrueHandler r h w with ⟨t, v⟩
  rw [hg] at hT
  simp at hT
  subst hT
  rcases noBypass_code h w hb with hb | ⟨h1, h2⟩
  · cases h1 : w.PathExists (w.handlerPath ++ '/' :: (P ++ '.' :: "js".toList)) <;>
    cases h2 : w.PathExists (w.handlerPath ++ '/' :: (P ++ '.' :: "mjs".toList)) <;>
    cases h3 : w.PathExists (w.handlerPath ++ '/' :: (P ++ '.' :: "cjs".toList)) <;>
    simp only [String.toList] at h1 h2 h3 <;>
    simp [hb, hl, run_bind, run_pure, hg, hP, Eff.ofOption, pathFormatter_run, util_PathExists,
      orElse, h1, h2, h3, Eff.pure]
  · simp only [String.toList, ne_eq] at h1 h2
    cases hTO : h.conf.TestingOverride <;>
    cases h3 : w.PathExists (w.handlerPath ++ '/' :: (P ++ '.' :: "js".toList)) <;>
    cases h4 : w.PathExists (w.handlerPath ++ '/' :: (P ++ '.' :: "mjs".toList)) <;>
    cases h5 : w.PathExists (w.handlerPath ++ '/' :: (P ++ '.' :: "cjs".toList)) <;>
    simp only [String.toList] at h3 h4 h5 <;>
    simp [hl, run_bind, run_pure, hg, hP, Eff.ofOption, pathFormatter_run, util_PathExists,
      isDocker_run, os_Getenv, h1, h2, orElse, h3, h4, h5, Eff.pure]

theorem check_run_node_panic (Node : GoString) (r : runtimeConfig) (h : handlerConfigs)
    (w : World) (hb : noBypass h w) (hl : r.language = Node) (T : GoString)
    (hT : (getTrueHandler r h w).value = some T) (hP : removePathMethodNameNode T = none) :
    check Node r h w = ⟨bypassTrace h ++ (getTrueHandler r h w).trace, none⟩ := by
  unfold check bypassTrace
  rcases hg : getTrueHandler r h w with ⟨t, v⟩
  rw [hg] at hT
  simp at hT
  subst hT
  rcases noBypass_code h w hb with hb | ⟨h1, h2⟩
  · simp [hb, hl, run_bind, run_pure, hg, hP, Eff.ofOption]
  · simp only [String.toList, ne_eq] at h1 h2
    cases hTO : h.conf.TestingOverride <;>
    simp [hl, run_bind, run_pure, hg, hP, Eff.ofOption, isDocker_run, os_Getenv, h1, h2]

theorem check_run_esm (Node : GoString) (r : runtimeConfig) (h : handlerConfigs) (w : World)
    (hTO : h.conf.TestingOverride = false)
    (hesm : strings_ToLower ((w.env "NEW_RELIC_USE_ESM".toList).getD []) = "true".toList) :
    check Node r h w = ⟨[Event.getenv "NEW_RELIC_USE_ESM".toList], some true⟩ := by
  unfold check
  simp only [String.toList] at hesm
  simp [hTO, run_bind, run_pure, os_Getenv, hesm]

theorem check_run_docker (Node : GoString) (r : runtimeConfig) (h : handlerConfigs) (w : World)
    (hTO : h.conf.TestingOverride = false)
    (hesm : strings_ToLower ((w.env "NEW_RELIC_USE_ESM".toList).getD []) ≠ "true".toList)
    (hd : strings_HasPrefix (strings_ToLower ((w.env "AWS_EXECUTION_ENV".toList).getD []))
        "aws_lambda".toList = false) :
    check Node r h w =
      ⟨[Event.getenv "NEW_RELIC_USE_ESM".toList, Event.getenv "AWS_EXECUTION_ENV".toList],
        some true⟩ := by
  unfold check
  simp only [String.toList, ne_eq] at hesm hd
  simp [hTO, run_bind, run_pure, os_Getenv, hesm, hd, isDocker_run]

theorem handlerCheck_run (Node : GoString) (ctx : Context) (conf : Configuration)
    (reg : RegistrationResponse) (r : runtimeConfig) (w : World) :
    handlerCheck Node ctx conf reg r w =
      if r.language = [] then ⟨[], some GoError.nil⟩
      else
        match check Node r ⟨reg.Handler, conf⟩ w with
        | ⟨t, none⟩ => ⟨t, none⟩
        | ⟨t, some true⟩ => ⟨t, some GoError.nil⟩
        | ⟨t, some false⟩ =>
          ⟨t, some (GoError.errorf ("missing handler file ".toList ++ reg.Handler ++
            " (NEW_RELIC_LAMBDA_HANDLER=".toList ++ conf.NRHandler ++ ")".toList))⟩ := by
  unfold handlerCheck
  by_cases hl : r.language = []
  · simp [hl, run_bind, run_pure]
  · rcases hc : check Node r ⟨reg.Handler, conf⟩ w with ⟨t, v⟩
    rcases v with _ | b
    · simp [hl, run_bind, hc]
    · cases b <;> simp [hl, run_bind, run_pure, hc, fmt_Sprintf]

/-! ## The caller contract -/

/-- C1: for a runtime record with a non-empty language, `handlerCheck` returns
success exactly when `check` returns true, and when `check` returns false it
returns the error whose message is `missing handler file ` followed by the
declared handler, ` (NEW_RELIC_LAMBDA_HANDLER=`, the configured `NRHandler` and
`)`; it returns no other error. -/
theorem handlerCheck_success_iff_check (Node : GoString) (ctx : Context) (conf : Configuration)
    (reg : RegistrationResponse) (r : runtimeConfig) (w : World) (hl : r.language ≠ []) :
    ((handlerCheck Node ctx conf reg r w).value = some GoError.nil ↔
        (check Node r ⟨reg.Handler, conf⟩ w).value = some true) ∧
      ((check Node r ⟨reg.Handler, conf⟩ w).value = some false →
        (handlerCheck Node ctx conf reg r w).value =
          some (GoError.errorf ("missing handler file ".toList ++ reg.Handler ++
            " (NEW_RELIC_LAMBDA_HANDLER=".toList ++ conf.NRHandler ++ ")".toList))) ∧
      (∀ msg, (handlerCheck Node ctx conf reg r w).value = some (GoError.errorf msg) →
        (check Node r ⟨reg.Handler, conf⟩ w).value = some false ∧
          msg = "missing handler file ".toList ++ reg.Handler ++
            " (NEW_RELIC_LAMBDA_HANDLER=".toList ++ conf.NRHandler ++ ")".toList) := by
  rw [handlerCheck_run]
  rcases hc : check Node r ⟨reg.Handler, conf⟩ w with ⟨t, v⟩
  rcases v with _ | b
  · simp [hl]
  · cases b
    · simp [hl]
    · simp [hl]

/-- C1, second scenario of the specification: the Node runtime, handler
`path/to/app.handler`, `NRHandler` `Undefined`, no file in the bundle. -/
theorem handlerCheck_success_iff_check_witness :
    exampleNode.language ≠ [] ∧
      (handlerCheck "node".toList () ⟨"Undefined".toList, true⟩ ⟨"path/to/app.handler".toList⟩
        exampleNode emptyWorld).value =
        some (GoError.errorf
          "missing handler file path/to/app.handler (NEW_RELIC_LAMBDA_HANDLER=Undefined)".toList) :=
  ⟨by decide,
    (handlerCheck_success_iff_check "node".toList () ⟨"Undefined".toList, true⟩
      ⟨"path/to/app.handler".toList⟩ exampleNode emptyWorld (by decide)).2.1 (by decide)⟩

/-- C9: for a runtime record with an empty language, `handlerCheck` returns
success whatever the configuration, registration response, environment and
filesystem, and interacts with nothing: it reads no environment variable,
probes no path and writes no log line, so `check` is not run. -/
theorem handlerCheck_empty_language (Node : GoString) (ctx : Context) (conf : Configuration)
    (reg : RegistrationResponse) (r : runtimeConfig) (w : World) (hl : r.language = []) :
    handlerCheck Node ctx conf reg r w = ⟨[], some GoError.nil⟩ := by
  rw [handlerCheck_run]
  simp [hl]

/-- C9 at the empty runtime record of the tests; there `check` itself would
read the environment. -/
theorem handlerCheck_empty_language_witness :
    handlerCheck "node".toList () ⟨[], true⟩ ⟨[]⟩ ⟨[], [], []⟩ emptyWorld = ⟨[], some GoError.nil⟩ ∧
      (check "node".toList ⟨[], [], []⟩ ⟨[], ⟨[], false⟩⟩ emptyWorld).trace ≠ [] :=
  ⟨handlerCheck_empty_language "node".toList () ⟨[], true⟩ ⟨[]⟩ ⟨[], [], []⟩ emptyWorld rfl,
    by decide⟩

/-! ## The bypasses -/

/-- C6: when `TestingOverride` is false and the value of `NEW_RELIC_USE_ESM` is
`true` in lower case, `check` returns true after reading that one variable and
`handlerCheck` returns success, for every runtime record, handler, and
filesystem. -/
theorem check_esm_bypass (Node : GoString) (ctx : Context) (conf : Configuration)
    (reg : RegistrationResponse) (r : runtimeConfig) (h : handlerConfigs) (w : World)
    (hTO : h.conf.TestingOverride = false) (hconf : conf.TestingOverride = false)
    (hesm : strings_ToLower ((w.env "NEW_RELIC_USE_ESM".toList).getD []) = "true".toList) :
    check Node r h w = ⟨[Event.getenv "NEW_RELIC_USE_ESM".toList], some true⟩ ∧
      (handlerCheck Node ctx conf reg r w).value = some GoError.nil := by
  refine ⟨check_run_esm Node r h w hTO hesm, ?_⟩
  rw [handlerCheck_run]
  by_cases hl : r.language = []
  · simp [hl]
  · have hc := check_run_esm Node r ⟨reg.Handler, conf⟩ w hconf hesm
    simp [hl, hc]

/-- C6, fifth scenario of the specification, with the value spelled `True`:
no file exists and the check succeeds. -/
theorem check_esm_bypass_witness :
    (check "node".toList exampleNode ⟨"index.handler".toList, ⟨[], false⟩⟩
        (withEnv emptyWorld "NEW_RELIC_USE_ESM".toList "True".toList)).value = some true ∧
      (handlerCheck "node".toList () ⟨[], false⟩ ⟨"index.handler".toList⟩ exampleNode
        (withEnv emptyWorld "NEW_RELIC_USE_ESM".toList "True".toList)).value = some GoError.nil :=
  ⟨congrArg Outcome.value
      (check_esm_bypass "node".toList () ⟨[], false⟩ ⟨"index.handler".toList⟩ exampleNode
        ⟨"index.handler".toList, ⟨[], false⟩⟩
        (withEnv emptyWorld "NEW_RELIC_USE_ESM".toList "True".toList) rfl rfl (by decide)).1,
    (check_esm_bypass "node".toList () ⟨[], false⟩ ⟨"index.handler".toList⟩ exampleNode
        ⟨"index.handler".toList, ⟨[], false⟩⟩
        (withEnv emptyWorld "NEW_RELIC_USE_ESM".toList "True".toList) rfl rfl (by decide)).2⟩

theorem isDocker_true_iff (w : World) : (isDocker w).value = some true ↔ notNative w := by
  rw [isDocker_run]
  unfold notNative
  have hpre : "aws_lambda".toList.map Char.toLower = "aws_lambda".toList := by decide
  rcases hv : w.env "AWS_EXECUTION_ENV".toList with _ | v
  · simp [strings_HasPrefix, strings_ToLower]
  · have hiff := hasPrefix_toLower_iff v "aws_lambda".toList hpre
    simp only [Option.getD_some, Option.some.injEq, Bool.not_eq_eq_eq_not, Bool.not_true]
    constructor
    · intro hd
      right
      intro hb
      rw [← hiff, hd] at hb
      cases hb
    · rintro (h1 | hb)
      · subst h1
        decide
      · rw [← hiff] at hb
        simpa using hb

/-- C7: `isDocker` is true exactly when `AWS_EXECUTION_ENV` is absent, empty, or
does not begin with `aws_lambda` when case is ignored (it is false for
`AWS_Lambda_nodejs14.x`); and when `TestingOverride` is false in such a process,
`check` returns true without probing any path, for every runtime record,
handler and filesystem. -/
theorem check_not_native_bypass (Node : GoString) (r : runtimeConfig) (h : handlerConfigs)
    (w : World) :
    ((isDocker w).value = some true ↔ notNative w) ∧
      (w.env "AWS_EXECUTION_ENV".toList = some "AWS_Lambda_nodejs14.x".toList →
        (isDocker w).value = some false) ∧
      (h.conf.TestingOverride = false → notNative w →
        (check Node r h w).value = some true ∧ ∀ p, Event.stat p ∉ (check Node r h w).trace) := by
  refine ⟨isDocker_true_iff w, ?_, ?_⟩
  · intro hv
    rw [isDocker_run, hv]
    decide
  · intro hTO hn
    have hd := (isDocker_true_iff w).mpr hn
    rw [isDocker_run] at hd
    by_cases hesm : strings_ToLower ((w.env "NEW_RELIC_USE_ESM".toList).getD []) = "true".toList
    · rw [check_run_esm Node r h w hTO hesm]
      simp
    · rw [check_run_docker Node r h w hTO hesm (by simpa using hd)]
      simp

/-- C7, sixth scenario of the specification: `AWS_EXECUTION_ENV=Docker`, no
file in the bundle. -/
theorem check_not_native_bypass_witness :
    notNative (withEnv emptyWorld "AWS_EXECUTION_ENV".toList "Docker".toList) ∧
      (check "node".toList exampleNode ⟨"index.handler".toList, ⟨[], false⟩⟩
        (withEnv emptyWorld "AWS_EXECUTION_ENV".toList "Docker".toList)).value = some true ∧
      (isDocker emptyWorld).value = some false :=
  ⟨by decide,
    ((check_not_native_bypass "node".toList exampleNode ⟨"index.handler".toList, ⟨[], false⟩⟩
      (withEnv emptyWorld "AWS_EXECUTION_ENV".toList "Docker".toList)).2.2 rfl (by decide)).1,
    (check_not_native_bypass "node".toList exampleNode ⟨"index.handler".toList, ⟨[], false⟩⟩
      emptyWorld).2.1 rfl⟩

/-! ## True-handler resolution -/

/-- C5, as stated, fails: with `TestingOverride` true, a declared handler that
is not the wrapper and an `NRHandler` equal to the declared handler, the result
is `NRHandler` although the declared handler differs from the wrapper. -/
theorem getTrueHandler_nrhandler_not_iff_wrapper :
    ¬ ((getTrueHandler ⟨"node".toList, "wrapper.handler".toList, "js".toList⟩
          ⟨"app.handler".toList, ⟨"app.handler".toList, true⟩⟩ emptyWorld).value =
          some "app.handler".toList ↔
        "app.handler".toList = "wrapper.handler".toList) := by
  decide

/-- C5, amended: `getTrueHandler` returns the handler of the three-way rule; and
with `TestingOverride` true it returns `NRHandler` when the declared handler is
the wrapper and the declared handler otherwise, so the result equals
`NRHandler` exactly when the declared handler is the wrapper or `NRHandler`
equals the declared handler. -/
theorem getTrueHandler_three_way (r : runtimeConfig) (h : handlerConfigs) (w : World) :
    (getTrueHandler r h w).value = some (trueHandler_spec r h w) ∧
      (h.conf.TestingOverride = true →
        (h.handlerName = r.wrapperName → (getTrueHandler r h w).value = some h.conf.NRHandler) ∧
        (h.handlerName ≠ r.wrapperName → (getTrueHandler r h w).value = some h.handlerName) ∧
        ((getTrueHandler r h w).value = some h.conf.NRHandler ↔
          (h.handlerName = r.wrapperName ∨ h.conf.NRHandler = h.handlerName))) := by
  rw [getTrueHandler_run]
  unfold trueHandler_spec
  constructor
  · cases hTO : h.conf.TestingOverride <;> simp <;> split_ifs <;> simp_all
  · intro hTO
    by_cases hw : h.handlerName = r.wrapperName
    · simp [hTO, hw]
    · simp [hTO, hw, eq_comm]

/-- C5 on two rows of the test table: the wrapper as declared handler gives
`NRHandler`, another declared handler is returned itself. -/
theorem getTrueHandler_three_way_witness :
    (getTrueHandler ⟨[], "wrapper.handler".toList, []⟩
        ⟨"wrapper.handler".toList, ⟨"nr.handler".toList, true⟩⟩ emptyWorld).value =
        some "nr.handler".toList ∧
      (getTrueHandler ⟨[], "wrapper.handler".toList, []⟩
        ⟨"test.handler".toList, ⟨"nr.handler".toList, true⟩⟩ emptyWorld).value =
        some "test.handler".toList :=
  ⟨((getTrueHandler_three_way ⟨[], "wrapper.handler".toList, []⟩
      ⟨"wrapper.handler".toList, ⟨"nr.handler".toList, true⟩⟩ emptyWorld).2 rfl).1 rfl,
    ((getTrueHandler_three_way ⟨[], "wrapper.handler".toList, []⟩
      ⟨"test.handler".toList, ⟨"nr.handler".toList, true⟩⟩ emptyWorld).2 rfl).2.1 (by decide)⟩

/-! ## Resolve and probe -/

/-- C3: for a runtime whose language is not Node, when no bypass applies,
`check` returns whether the one path made of the deployment root, `/`, the
generic split of the true handler, `.` and the file type of the runtime exists;
after resolving the true handler it probes that path and no other. -/
theorem check_other_single_candidate (Node : GoString) (r : runtimeConfig) (h : handlerConfigs)
    (w : World) (hl : r.language ≠ Node) (hb : noBypass h w) :
    ∃ T P, (getTrueHandler r h w).value = some T ∧ removePathMethodName T = some P ∧
      (check Node r h w).value =
        some (w.PathExists (w.handlerPath ++ "/".toList ++ P ++ ".".toList ++ r.fileType)) ∧
      (check Node r h w).trace =
        bypassTrace h ++ (getTrueHandler r h w).trace ++
          [Event.stat (w.handlerPath ++ "/".toList ++ P ++ ".".toList ++ r.fileType)] := by
  obtain ⟨T, hT⟩ := getTrueHandler_returns r h w
  refine ⟨T, _, hT, removePathMethodName_total T, ?_, ?_⟩
  · rw [check_run_other Node r h w hb hl T _ hT (removePathMethodName_total T)]
    simp
  · rw [check_run_other Node r h w hb hl T _ hT (removePathMethodName_total T)]
    simp

/-- C3, fourth scenario of the specification: the Python runtime, handler
`path/to/app.handler`, and the file `/tmp/x/var/task/path/to/app.py` present. -/
theorem check_other_single_candidate_witness :
    (examplePython.language ≠ "node".toList ∧
      noBypass ⟨"path/to/app.handler".toList, ⟨"Undefined".toList, true⟩⟩
        (withFiles emptyWorld ["/tmp/x/var/task/path/to/app.py".toList])) ∧
    (∃ T P, (getTrueHandler examplePython ⟨"path/to/app.handler".toList, ⟨"Undefined".toList, true⟩⟩
          (withFiles emptyWorld ["/tmp/x/var/task/path/to/app.py".toList])).value = some T ∧
        removePathMethodName T = some P ∧
        (check "node".toList examplePython ⟨"path/to/app.handler".toList, ⟨"Undefined".toList, true⟩⟩
          (withFiles emptyWorld ["/tmp/x/var/task/path/to/app.py".toList])).value =
          some ((withFiles emptyWorld ["/tmp/x/var/task/path/to/app.py".toList]).PathExists
            ((withFiles emptyWorld ["/tmp/x/var/task/path/to/app.py".toList]).handlerPath ++
              "/".toList ++ P ++ ".".toList ++ examplePython.fileType)) ∧
        (check "node".toList examplePython ⟨"path/to/app.handler".toList, ⟨"Undefined".toList, true⟩⟩
          (withFiles emptyWorld ["/tmp/x/var/task/path/to/app.py".toList])).trace =
          bypassTrace ⟨"path/to/app.handler".toList, ⟨"Undefined".toList, true⟩⟩ ++
            (getTrueHandler examplePython
              ⟨"path/to/app.handler".toList, ⟨"Undefined".toList, true⟩⟩
              (withFiles emptyWorld ["/tmp/x/var/task/path/to/app.py".toList])).trace ++
            [Event.stat ((withFiles emptyWorld ["/tmp/x/var/task/path/to/app.py".toList]).handlerPath
              ++ "/".toList ++ P ++ ".".toList ++ examplePython.fileType)]) ∧
    (check "node".toList examplePython ⟨"path/to/app.handler".toList, ⟨"Undefined".toList, true⟩⟩
      (withFiles emptyWorld ["/tmp/x/var/task/path/to/app.py".toList])).value = some true :=
  ⟨⟨by decide, by decide⟩,
    check_other_single_candidate "node".toList examplePython
      ⟨"path/to/app.handler".toList, ⟨"Undefined".toList, true⟩⟩
      (withFiles emptyWorld ["/tmp/x/var/task/path/to/app.py".toList]) (by decide) (Or.inl rfl),
    by decide⟩

/-- C2, the code at the failing input: the Node runtime with `TestingOverride`
true and the handler `path/to/app.handler`, none of the three candidates under
the deployment root present, and the relative path `path/to/app` present in
the working directory.  `check` probes the three candidates, then the bare
split result, and returns true. -/
theorem check_node_probes_bare_split :
    (withFiles emptyWorld ["path/to/app".toList]).PathExists
        "/tmp/x/var/task/path/to/app.js".toList = false ∧
      (withFiles emptyWorld ["path/to/app".toList]).PathExists
        "/tmp/x/var/task/path/to/app.cjs".toList = false ∧
      (withFiles emptyWorld ["path/to/app".toList]).PathExists
        "/tmp/x/var/task/path/to/app.mjs".toList = false ∧
      check "node".toList exampleNode ⟨"path/to/app.handler".toList, ⟨"Undefined".toList, true⟩⟩
          (withFiles emptyWorld ["path/to/app".toList]) =
        ⟨[Event.logln ["Warning: handler not set to New Relic layer wrapper".toList,
              "newrelic-lambda-wrapper.handler".toList],
            Event.stat "/tmp/x/var/task/path/to/app.js".toList,
            Event.stat "/tmp/x/var/task/path/to/app.mjs".toList,
            Event.stat "/tmp/x/var/task/path/to/app.cjs".toList,
            Event.stat "path/to/app".toList],
          some true⟩ := by
  decide

/-- C4, the code at the failing input: the Node runtime with `TestingOverride`
true and an empty declared handler.  The true handler is empty, the Node split
slices it at index `-1`, and `handlerCheck` panics. -/
theorem handlerCheck_panics_on_empty_handler :
    removePathMethodNameNode [] = none ∧
      (handlerCheck "node".toList () ⟨"Undefined".toList, true⟩ ⟨[]⟩ exampleNode emptyWorld).value =
        none ∧
      (handlerCheck "node".toList () ⟨[], false⟩ ⟨"newrelic-lambda-wrapper.handler".toList⟩
        exampleNode emptyWorld).value = none := by
  decide

/-! ## The testing override -/

theorem getTrueHandler_run_override (r : runtimeConfig) (h : handlerConfigs) (w : World)
    (hTO : h.conf.TestingOverride = true) :
    getTrueHandler r h w =
      if h.handlerName ≠ r.wrapperName then
        ⟨[Event.logln ["Warning: handler not set to New Relic layer wrapper".toList,
          r.wrapperName]], some h.handlerName⟩
      else ⟨[], some h.conf.NRHandler⟩ := by
  rw [getTrueHandler_run]
  simp [hTO]

theorem getTrueHandler_trace_override (r : runtimeConfig) (h : handlerConfigs) (w : World)
    (hTO : h.conf.TestingOverride = true) (e : Event) (he : e ∈ (getTrueHandler r h w).trace) :
    e = Event.logln ["Warning: handler not set to New Relic layer wrapper".toList,
      r.wrapperName] := by
  rw [getTrueHandler_run_override r h w hTO] at he
  split_ifs at he <;> simp at he
  exact he

theorem nodeProbes_congr (w1 w2 : World) (P : GoString) (hroot : w1.handlerPath = w2.handlerPath)
    (hfs : ∀ p, Event.stat p ∈ nodeProbes w1 P → w1.PathExists p = w2.PathExists p) :
    nodeProbes w2 P = nodeProbes w1 P ∧
      w2.PathExists (candidate w2 P "js".toList) = w1.PathExists (candidate w1 P "js".toList) ∧
      (w1.PathExists (candidate w1 P "js".toList) = false →
        w2.PathExists (candidate w2 P "mjs".toList) =
          w1.PathExists (candidate w1 P "mjs".toList)) ∧
      (w1.PathExists (candidate w1 P "js".toList) = false →
        w1.PathExists (candidate w1 P "mjs".toList) = false →
        w2.PathExists (candidate w2 P "cjs".toList) =
          w1.PathExists (candidate w1 P "cjs".toList)) ∧
      (w1.PathExists (candidate w1 P "js".toList) = false →
        w1.PathExists (candidate w1 P "mjs".toList) = false →
        w1.PathExists (candidate w1 P "cjs".toList) = false →
        w2.PathExists P = w1.PathExists P) := by
  have hc : ∀ E, candidate w2 P E = candidate w1 P E := by
    intro E
    simp [candidate, hroot]
  unfold nodeProbes at hfs ⊢
  simp only [hc]
  cases h1 : w1.PathExists (candidate w1 P "js".toList) <;>
  cases h2 : w1.PathExists (candidate w1 P "mjs".toList) <;>
  cases h3 : w1.PathExists (candidate w1 P "cjs".toList) <;>
  simp [h1, h2, h3] at hfs ⊢ <;>
  simp_all

theorem nodeProbes_verdict (w : World) (P : GoString) :
    (w.PathExists (candidate w P "js".toList) || w.PathExists (candidate w P "mjs".toList)
        || w.PathExists (candidate w P "cjs".toList) || w.PathExists P) = true ↔
      ∃ p, Event.stat p ∈ nodeProbes w P ∧ w.PathExists p = true := by
  unfold nodeProbes
  cases h1 : w.PathExists (candidate w P "js".toList) <;>
  cases h2 : w.PathExists (candidate w P "mjs".toList) <;>
  cases h3 : w.PathExists (candidate w P "cjs".toList) <;>
  simp only [String.toList] at h1 h2 h3 <;>
  simp [h1, h2, h3]

/-- C8: with `TestingOverride` true, `check` reads no environment variable, and
for two processes with the same deployment root whose filesystems agree on
every path but `/.dockerenv` (their environments may differ in any way), where
the run does not probe `/.dockerenv` as a handler path, `check` behaves the
same in both; its verdict is that of the probes: true exactly when a path it
probed exists. -/
theorem check_override_ignores_environment (Node : GoString) (r : runtimeConfig)
    (h : handlerConfigs) (w1 w2 : World) (hTO : h.conf.TestingOverride = true)
    (hroot : w1.handlerPath = w2.handlerPath)
    (hfs : ∀ p, p ≠ "/.dockerenv".toList → w1.PathExists p = w2.PathExists p)
    (hprobe : Event.stat "/.dockerenv".toList ∉ (check Node r h w1).trace) :
    check Node r h w2 = check Node r h w1 ∧
      getTrueHandler r h w2 = getTrueHandler r h w1 ∧
      (∀ name, Event.getenv name ∉ (check Node r h w1).trace) ∧
      (∀ b, (check Node r h w1).value = some b →
        (b = true ↔ ∃ p, Event.stat p ∈ (check Node r h w1).trace ∧ w1.PathExists p = true)) := by
  have hg : getTrueHandler r h w2 = getTrueHandler r h w1 := by
    rw [getTrueHandler_run_override r h w1 hTO, getTrueHandler_run_override r h w2 hTO]
  have hgt := getTrueHandler_trace_override r h w1 hTO
  obtain ⟨T, hT⟩ := getTrueHandler_returns r h w1
  have hT2 : (getTrueHandler r h w2).value = some T := by rw [hg]; exact hT
  have hbt : bypassTrace h = [] := by simp [bypassTrace, hTO]
  have hnostat : ∀ p, Event.stat p ∉ (getTrueHandler r h w1).trace := by
    intro p hp
    cases hgt _ hp
  have hnoenv : ∀ name, Event.getenv name ∉ (getTrueHandler r h w1).trace := by
    intro name hp
    cases hgt _ hp
  by_cases hl : r.language = Node
  · rcases hP : removePathMethodNameNode T with _ | P
    · rw [check_run_node_panic Node r h w1 (Or.inl hTO) hl T hT hP,
        check_run_node_panic Node r h w2 (Or.inl hTO) hl T hT2 hP, hg]
      refine ⟨rfl, rfl, ?_, ?_⟩
      · intro name
        simpa [hbt] using hnoenv name
      · intro b hb
        cases hb
    · rw [check_run_node Node r h w1 (Or.inl hTO) hl T P hT hP] at hprobe ⊢
      rw [check_run_node Node r h w2 (Or.inl hTO) hl T P hT2 hP, hg]
      have hfs' : ∀ p, Event.stat p ∈ nodeProbes w1 P → w1.PathExists p = w2.PathExists p := by
        intro p hp
        apply hfs
        rintro rfl
        exact hprobe (List.mem_append_right _ hp)
      obtain ⟨e0, e1, e2, e3, e4⟩ := nodeProbes_congr w1 w2 P hroot hfs'
      refine ⟨?_, rfl, ?_, ?_⟩
      · rw [e0]
        congr 2
        cases h1 : w1.PathExists (candidate w1 P "js".toList)
        · cases h2 : w1.PathExists (candidate w1 P "mjs".toList)
          · cases h3 : w1.PathExists (candidate w1 P "cjs".toList)
            · rw [e1, e2 h1, e3 h1 h2, e4 h1 h2 h3, h1, h2, h3]
            · rw [e1, e2 h1, e3 h1 h2, h1, h2, h3]
              simp
          · rw [e1, e2 h1, h1, h2]
            simp
        · rw [e1, h1]
          simp
      · intro name hm
        simp only [hbt, List.nil_append, List.mem_append] at hm
        rcases hm with hm | hm
        · exact hnoenv name hm
        · unfold nodeProbes at hm
          split_ifs at hm <;> simp at hm
      · intro b hb
        simp only [Option.some.injEq] at hb
        subst hb
        rw [nodeProbes_verdict]
        constructor
        · rintro ⟨p, hp, hex⟩
          exact ⟨p, by simp [hp], hex⟩
        · rintro ⟨p, hp, hex⟩
          simp only [hbt, List.nil_append, List.mem_append] at hp
          rcases hp with hp | hp
          · exact absurd hp (hnostat p)
          · exact ⟨p, hp, hex⟩
  · obtain ⟨P, hP⟩ : ∃ P, removePathMethodName T = some P := ⟨_, removePathMethodName_total T⟩
    rw [check_run_other Node r h w1 (Or.inl hTO) hl T P hT hP] at hprobe ⊢
    rw [check_run_other Node r h w2 (Or.inl hTO) hl T P hT2 hP, hg, ← hroot]
    have hne : w1.handlerPath ++ '/' :: (P ++ '.' :: r.fileType) ≠ "/.dockerenv".toList := by
      intro heq
      apply hprobe
      rw [← heq]
      exact List.mem_append_right _ (List.mem_singleton_self _)
    refine ⟨?_, rfl, ?_, ?_⟩
    · rw [hfs _ hne]
    · intro name hm
      simp only [hbt, List.nil_append, List.mem_append, List.mem_singleton] at hm
      rcases hm with hm | hm
      · exact hnoenv name hm
      · cases hm
    · intro b hb
      simp only [Option.some.injEq] at hb
      subst hb
      constructor
      · intro hex
        exact ⟨_, by simp, hex⟩
      · rintro ⟨p, hp, hex⟩
        simp only [hbt, List.nil_append, List.mem_append, List.mem_singleton] at hp
        rcases hp with hp | hp
        · exact absurd hp (hnostat p)
        · cases hp
          exact hex

/-- C8 on the last step of `TestCheckWithTestingOverride`, run natively and in
a container that asks for ESM: the same verdict, true, in both. -/
theorem check_override_ignores_environment_witness :
    check "node".toList ⟨"node".toList, "test.handler".toList, "js".toList⟩
        ⟨"test.handler".toList, ⟨"test/handler.method".toList, true⟩⟩ overrideWorldDocker =
      check "node".toList ⟨"node".toList, "test.handler".toList, "js".toList⟩
        ⟨"test.handler".toList, ⟨"test/handler.method".toList, true⟩⟩ overrideWorld ∧
    (check "node".toList ⟨"node".toList, "test.handler".toList, "js".toList⟩
        ⟨"test.handler".toList, ⟨"test/handler.method".toList, true⟩⟩ overrideWorld).value =
      some true :=
  ⟨(check_override_ignores_environment "node".toList
      ⟨"node".toList, "test.handler".toList, "js".toList⟩
      ⟨"test.handler".toList, ⟨"test/handler.method".toList, true⟩⟩ overrideWorld
      overrideWorldDocker rfl rfl
      (by
        intro p hp
        simp only [overrideWorld, overrideWorldDocker, withFiles, withEnv, List.mem_cons,
          List.mem_singleton, List.not_mem_nil, or_false, hp])
      (by decide)).1,
    by decide⟩

/-! ## The Node split -/

theorem dirPrefix_append_basename (H : GoString) : dirPrefix_spec H ++ basename_spec H = H := by
  unfold dirPrefix_spec basename_spec
  rw [← List.reverse_append, List.takeWhile_append_dropWhile, List.reverse_reverse]

theorem dirPrefix_nil_or_slash (H : GoString) :
    dirPrefix_spec H = [] ∨ ∃ D, dirPrefix_spec H = D ++ ['/'] := by
  unfold dirPrefix_spec
  rcases hd : H.reverse.dropWhile (fun c => c != '/') with _ | ⟨c, cs⟩
  · exact Or.inl rfl
  · right
    have hc := List.head_dropWhile_not (fun c => c != '/') H.reverse (by rw [hd]; simp)
    simp only [hd, List.head_cons] at hc
    have hc' : c = '/' := by simpa using hc
    exact ⟨cs.reverse, by simp [hc']⟩

theorem filepath_Base_eq_basename (H : GoString) (hB : basename_spec H ≠ []) :
    filepath_Base H = basename_spec H := by
  unfold basename_spec at hB
  have hH : H ≠ [] := by
    rintro rfl
    simp at hB
  rcases hr : H.reverse with _ | ⟨c, cs⟩
  · simp at hr
    exact absurd hr hH
  · have hc : (c != '/') = true := by
      by_contra hcon
      apply hB
      rw [hr]
      simp only [Bool.not_eq_true] at hcon
      simp [List.takeWhile, hcon]
    have hdrop : H.reverse.dropWhile (fun c => c == '/') = H.reverse := by
      rw [hr]
      have : (c == '/') = false := by simpa using hc
      simp [List.dropWhile, this]
    unfold filepath_Base basename_spec
    simp only [hH, if_false, hdrop, List.reverse_reverse]
    simp only [hB, if_false]

theorem strings_Index_from_first (sub : GoString) :
    ∀ (s : GoString) (n i : Nat), n ≤ s.length → sub <+: s.drop n →
      (∀ j, j < n → ¬ sub <+: s.drop j) → strings_Index_from sub s i = ((i + n : Nat) : Int) := by
  intro s
  induction s with
  | nil =>
    intro n i hn hpre _
    have hn0 : n = 0 := by simpa using hn
    subst hn0
    have : sub.isPrefixOf [] = true := List.isPrefixOf_iff_prefix.mpr (by simpa using hpre)
    simp [strings_Index_from, this]
  | cons c cs ih =>
    intro n i hn hpre hfirst
    rcases n with _ | n
    · have : sub.isPrefixOf (c :: cs) = true := List.isPrefixOf_iff_prefix.mpr (by simpa using hpre)
      simp [strings_Index_from, this]
    · have h0 : ¬ sub <+: (c :: cs) := by simpa using hfirst 0 (Nat.succ_pos n)
      have h0' : sub.isPrefixOf (c :: cs) = false := by
        rw [Bool.eq_false_iff]
        intro hcon
        exact h0 (List.isPrefixOf_iff_prefix.mp hcon)
      have hrec := ih n (i + 1) (by simpa using hn) (by simpa using hpre)
        (fun j hj => by simpa using hfirst (j + 1) (Nat.succ_lt_succ hj))
      rw [strings_Index_from]
      simp only [h0', Bool.false_eq_true, if_false, hrec]
      congr 1
      omega

theorem strings_Split_head (s : GoString) (sep : Char) :
    (strings_Split s sep).head? = some (s.takeWhile (fun c => c != sep)) := by
  induction s with
  | nil => simp [strings_Split]
  | cons c cs ih =>
    unfold strings_Split
    by_cases hc : c = sep
    · simp [hc, List.takeWhile]
    · have hne : (c != sep) = true := by simpa using hc
      rcases hs : strings_Split cs sep with _ | ⟨seg, rest⟩
      · exact absurd hs (strings_Split_ne_nil cs sep)
      · rw [hs] at ih
        simp only [List.head?_cons, Option.some.injEq] at ih
        simp [hc, List.takeWhile, hne, ih]

theorem strings_Split_append (a b : GoString) (sep : Char) :
    strings_Split (a ++ sep :: b) sep = strings_Split a sep ++ strings_Split b sep := by
  induction a with
  | nil => simp [strings_Split]
  | cons c cs ih =>
    rw [List.cons_append, strings_Split, strings_Split, ih]
    by_cases hc : c = sep
    · simp [hc]
    · rcases hs : strings_Split cs sep with _ | ⟨seg, rest⟩
      · exact absurd hs (strings_Split_ne_nil cs sep)
      · simp [hc]

theorem filepath_Clean_double_slash (a b : GoString) :
    filepath_Clean (a ++ '/' :: '/' :: b) = filepath_Clean (a ++ '/' :: b) := by
  have hhead : (a ++ '/' :: '/' :: b).head? = (a ++ '/' :: b).head? := by
    cases a <;> simp
  have hsplit : ∀ rooted b0,
      (strings_Split (a ++ '/' :: '/' :: b) '/').foldl (cleanStep rooted) b0 =
        (strings_Split (a ++ '/' :: b) '/').foldl (cleanStep rooted) b0 := by
    intro rooted b0
    rw [strings_Split_append, strings_Split_append]
    have : strings_Split ('/' :: b) '/' = [] :: strings_Split b '/' := by
      rw [strings_Split]
      simp
    rw [this, List.foldl_append, List.foldl_append, List.foldl_cons]
    simp [cleanStep]
  unfold filepath_Clean
  simp only [hhead, hsplit]
  simp

theorem filepath_Join_dir (D m : GoString) (hD : D = [] ∨ ∃ D0, D = D0 ++ ['/']) :
    filepath_Join [D, m] = if D ++ m = [] then [] else filepath_Clean (D ++ m) := by
  rcases hD with rfl | ⟨D0, rfl⟩
  · by_cases hm : m = []
    · simp [filepath_Join, hm]
    · simp [filepath_Join, hm, strings_Join]
  · have h1 : D0 ++ ['/'] ≠ [] := by simp
    have h2 : D0 ++ ['/'] ++ m ≠ [] := by simp
    simp only [filepath_Join, h1, h2, if_false, strings_Join]
    have := filepath_Clean_double_slash D0 m
    simpa using this

theorem removePathMethodNameNode_parts (D B : GoString) (hBase : filepath_Base (D ++ B) = B)
    (hfirst : ∀ i, i < D.length → ¬ B <+: (D ++ B).drop i)
    (hD : D = [] ∨ ∃ D0, D = D0 ++ ['/']) :
    removePathMethodNameNode (D ++ B) =
      some (if D ++ B.takeWhile (fun c => c != '.') = [] then []
        else filepath_Clean (D ++ B.takeWhile (fun c => c != '.'))) := by
  have hidx : strings_Index (D ++ B) B = ((D.length : Nat) : Int) := by
    have := strings_Index_from_first B (D ++ B) D.length 0 (by simp) (by simp) hfirst
    simpa [strings_Index] using this
  have hslice : sliceTo (D ++ B) ((D.length : Nat) : Int) = some D := by
    simp [sliceTo]
  unfold removePathMethodNameNode
  simp only [hBase, hidx, hslice, indexFirst, strings_Split_head, Option.bind_eq_bind,
    Option.some_bind, Option.pure_def]
  rw [filepath_Join_dir _ _ hD]

/-- C10, as stated, fails.  For `./index.handler` the Node split is `index`, not
`./index`: the result is cleaned, not kept as written.  It also differs from
the directory prefix followed by the truncated basename for `index/index`
(the basename is found at its first occurrence), for `a/b/` (the basename is
empty) and for the empty identifier (the split panics). -/
theorem removePathMethodNameNode_not_prefix_as_written :
    nodeSplit_spec "./index.handler".toList = "./index".toList ∧
      removePathMethodNameNode "./index.handler".toList = some "index".toList ∧
      removePathMethodNameNode "./index.handler".toList ≠
        some (nodeSplit_spec "./index.handler".toList) ∧
      removePathMethodNameNode "index/index".toList ≠ some (nodeSplit_spec "index/index".toList) ∧
      removePathMethodNameNode "a/b/".toList ≠ some (nodeSplit_spec "a/b/".toList) ∧
      removePathMethodNameNode [] ≠ some (nodeSplit_spec []) := by
  decide

/-- C10, amended: for a handler identifier whose basename is not empty and does
not occur in the identifier before the end of its directory prefix, the Node
split is the directory prefix followed by the basename truncated at its first
`.`, cleaned lexically as `filepath.Clean` does (and empty when both parts
are empty). -/
theorem removePathMethodNameNode_cleaned (H : GoString) (hB : basename_spec H ≠ [])
    (hfirst : ∀ i, i < (dirPrefix_spec H).length → ¬ basename_spec H <+: H.drop i) :
    removePathMethodNameNode H =
      some (if nodeSplit_spec H = [] then [] else filepath_Clean (nodeSplit_spec H)) := by
  have hH := dirPrefix_append_basename H
  have hBase := filepath_Base_eq_basename H hB
  have key := removePathMethodNameNode_parts (dirPrefix_spec H) (basename_spec H)
    (by rw [hH]; exact hBase) (by rw [hH]; exact hfirst) (dirPrefix_nil_or_slash H)
  rw [hH] at key
  exact key

/-- C10, amended, on `./src//index.test.handler`: the split is `src/index`. -/
theorem removePathMethodNameNode_cleaned_witness :
    basename_spec "./src//index.test.handler".toList ≠ [] ∧
      nodeSplit_spec "./src//index.test.handler".toList = "./src//index".toList ∧
      removePathMethodNameNode "./src//index.test.handler".toList = some "src/index".toList :=
  ⟨by decide, by decide,
    removePathMethodNameNode_cleaned "./src//index.test.handler".toList (by decide) (by decide)⟩

/-! ## Splitting and joining -/

theorem strings_Split_no_sep (s : GoString) (sep : Char) (hs : sep ∉ s) :
    strings_Split s sep = [s] := by
  induction s with
  | nil => simp [strings_Split]
  | cons c cs ih =>
    have hc : c ≠ sep := fun h => hs (by simp [h])
    have hcs : sep ∉ cs := fun h => hs (by simp [h])
    rw [strings_Split, ih hcs]
    simp [hc]

theorem strings_Join_cons (a : GoString) (rest : List GoString) (sep : GoString)
    (hrest : rest ≠ []) : strings_Join (a :: rest) sep = a ++ sep ++ strings_Join rest sep := by
  rcases rest with _ | ⟨b, r⟩
  · exact absurd rfl hrest
  · rfl

theorem strings_Split_Join (comps : List GoString) (sep : Char) (hne : comps ≠ [])
    (hc : ∀ c ∈ comps, sep ∉ c) : strings_Split (strings_Join comps [sep]) sep = comps := by
  induction comps with
  | nil => exact absurd rfl hne
  | cons a rest ih =>
    rcases rest with _ | ⟨b, r⟩
    · simpa [strings_Join] using strings_Split_no_sep a sep (hc a (by simp))
    · rw [strings_Join_cons a (b :: r) [sep] (by simp), List.append_assoc, List.singleton_append,
        strings_Split_append, strings_Split_no_sep a sep (hc a (by simp)),
        ih (by simp) (fun c hcm => hc c (List.mem_cons_of_mem a hcm))]
      rfl

theorem strings_Join_Split_map (s : GoString) (c d : Char) :
    strings_Join (strings_Split s c) [d] = s.map (fun x => if x = c then d else x) := by
  induction s with
  | nil => simp [strings_Split, strings_Join]
  | cons x xs ih =>
    rcases hs : strings_Split xs c with _ | ⟨seg, rest⟩
    · exact absurd hs (strings_Split_ne_nil xs c)
    · rw [hs] at ih
      rw [strings_Split, hs]
      by_cases hx : x = c
      · simp only [hx, if_true, List.map_cons]
        rw [strings_Join_cons [] (seg :: rest) [d] (by simp), ih]
        simp
      · simp only [hx, if_false, List.map_cons]
        rw [← ih]
        rcases rest with _ | ⟨b, r⟩
        · simp [strings_Join]
        · simp [strings_Join]

theorem strings_Join_snoc (segs : List GoString) (x : GoString) :
    strings_Join (segs ++ [x]) ['/'] = dirOf segs ++ x := by
  induction segs with
  | nil => simp [strings_Join, dirOf]
  | cons a rest ih =>
    rw [List.cons_append, strings_Join_cons a (rest ++ [x]) ['/'] (by simp), ih]
    simp [dirOf]

/-! ## Cleaning a path that is already clean -/

theorem cleanStep_plain (rooted : Bool) (b : CleanBuf) (e : GoString) (he : plainSegment e) :
    cleanStep rooted b e = { b with out := e :: b.out } := by
  obtain ⟨h1, _, h3, h4⟩ := he
  simp [cleanStep, h1, h3, h4]

theorem foldl_cleanStep_plain (rooted : Bool) (comps : List GoString)
    (hc : ∀ c ∈ comps, plainSegment c) (b : CleanBuf) :
    comps.foldl (cleanStep rooted) b = { b with out := comps.reverse ++ b.out } := by
  induction comps generalizing b with
  | nil => simp
  | cons a rest ih =>
    rw [List.foldl_cons, cleanStep_plain rooted b a (hc a (by simp)),
      ih (fun c hcm => hc c (List.mem_cons_of_mem a hcm))]
    simp

theorem strings_Join_head (comps : List GoString) (a : GoString) (x : Char) (xs : GoString)
    (ha : a = x :: xs) : (strings_Join (a :: comps) ['/']).head? = some x := by
  subst ha
  rcases comps with _ | ⟨b, r⟩ <;> simp [strings_Join]

theorem filepath_Clean_plain (comps : List GoString) (hne : comps ≠ [])
    (hc : ∀ c ∈ comps, plainSegment c) :
    filepath_Clean (strings_Join comps ['/']) = strings_Join comps ['/'] := by
  rcases comps with _ | ⟨a, rest⟩
  · exact absurd rfl hne
  · obtain ⟨ha1, ha2, _, _⟩ := hc a (by simp)
    rcases a with _ | ⟨x, xs⟩
    · exact absurd rfl ha1
    · have hx : x ≠ '/' := fun h => ha2 (by simp [h])
      have hhead := strings_Join_head rest (x :: xs) x xs rfl
      have hpath : strings_Join ((x :: xs) :: rest) ['/'] ≠ [] := by
        intro h
        rw [h] at hhead
        simp at hhead
      have hsplit := strings_Split_Join ((x :: xs) :: rest) '/' (by simp)
        (fun c hcm => (hc c hcm).2.1)
      have hrooted : ((strings_Join ((x :: xs) :: rest) ['/']).head? == some '/') = false := by
        rw [hhead]
        simpa using hx
      unfold filepath_Clean
      simp only [hpath, if_false, hrooted, hsplit, foldl_cleanStep_plain false _ hc,
        List.append_nil, List.reverse_reverse, Bool.false_eq_true]

theorem dirOf_nil_or_slash (segs : List GoString) :
    dirOf segs = [] ∨ ∃ D0, dirOf segs = D0 ++ ['/'] := by
  rcases List.eq_nil_or_concat segs with rfl | ⟨init, last, rfl⟩
  · exact Or.inl rfl
  · right
    refine ⟨dirOf init ++ last, ?_⟩
    simp [dirOf]

theorem basename_spec_append (D B : GoString) (hB : '/' ∉ B)
    (hD : D = [] ∨ ∃ D0, D = D0 ++ ['/']) : basename_spec (D ++ B) = B := by
  unfold basename_spec
  have hall : ∀ c ∈ B.reverse, (c != '/') = true := by
    intro c hcm
    have : c ≠ '/' := fun h => hB (by rw [← h]; exact List.mem_reverse.mp hcm)
    simpa using this
  rw [List.reverse_append]
  rcases hD with rfl | ⟨D0, rfl⟩
  · simp only [List.reverse_nil, List.append_nil]
    rw [List.takeWhile_eq_self_iff.mpr hall, List.reverse_reverse]
  · rw [List.reverse_append, List.reverse_singleton, List.singleton_append,
      List.takeWhile_append_of_pos hall]
    simp [List.takeWhile]

/-! ## The Node split of a conventional handler -/

theorem takeWhile_not_dot_plain (B : GoString) (hB : B ≠ []) (hslash : '/' ∉ B)
    (hdot : B.head? ≠ some '.') : plainSegment (B.takeWhile (fun c => c != '.')) := by
  have hnodot : '.' ∉ B.takeWhile (fun c => c != '.') := by
    intro hm
    have := List.mem_takeWhile_imp hm
    simp at this
  refine ⟨?_, ?_, ?_, ?_⟩
  · rcases B with _ | ⟨x, xs⟩
    · exact absurd rfl hB
    · have hx : (x != '.') = true := by simpa using hdot
      simp [List.takeWhile, hx]
  · intro hm
    exact hslash ((List.takeWhile_sublist _).subset hm)
  · intro h
    rw [h] at hnodot
    simp at hnodot
  · intro h
    rw [h] at hnodot
    simp at hnodot

theorem removePathMethodNameNode_plain (segs : List GoString) (B : GoString)
    (hsegs : ∀ seg ∈ segs, plainSegment seg) (hB : B ≠ []) (hslash : '/' ∉ B)
    (hdot : B.head? ≠ some '.')
    (hfirst : ∀ i, i < (dirOf segs).length → ¬ B <+: (dirOf segs ++ B).drop i) :
    removePathMethodNameNode (dirOf segs ++ B) =
      some (dirOf segs ++ B.takeWhile (fun c => c != '.')) := by
  have hD := dirOf_nil_or_slash segs
  have hbase : basename_spec (dirOf segs ++ B) = B := basename_spec_append _ B hslash hD
  have hBase : filepath_Base (dirOf segs ++ B) = B := by
    rw [filepath_Base_eq_basename _ (by rw [hbase]; exact hB), hbase]
  have hplain := takeWhile_not_dot_plain B hB hslash hdot
  rw [removePathMethodNameNode_parts (dirOf segs) B hBase hfirst hD, ← strings_Join_snoc]
  have hne : strings_Join (segs ++ [B.takeWhile (fun c => c != '.')]) ['/'] ≠ [] := by
    rw [strings_Join_snoc]
    intro h
    exact hplain.1 (List.append_eq_nil.mp h).2
  rw [if_neg hne, filepath_Clean_plain _ (by simp)]
  intro c hcm
  rcases List.mem_append.mp hcm with h | h
  · exact hsegs c h
  · rw [List.mem_singleton.mp h]
    exact hplain

/-- C11: for a handler `D ++ B` where `D` is empty or a sequence of directory
segments, each not empty, without `/`, neither `.` nor `..`, and followed by
`/`, and where `B` is not empty, has no `/`, does not start with `.` and does
not occur in the handler before the end of `D`, the Node split is `D` followed
by `B` up to its first `.`. -/
theorem removePathMethodNameNode_conventional (segs : List GoString) (B : GoString)
    (hsegs : ∀ seg ∈ segs, plainSegment seg) (hB : B ≠ []) (hslash : '/' ∉ B)
    (hdot : B.head? ≠ some '.')
    (hfirst : ∀ i, i < (dirOf segs).length → ¬ B <+: (dirOf segs ++ B).drop i) :
    removePathMethodNameNode (dirOf segs ++ B) =
      some (dirOf segs ++ B.takeWhile (fun c => c != '.')) :=
  removePathMethodNameNode_plain segs B hsegs hB hslash hdot hfirst

/-- C11 on the four rows of `TestRemovePathMethodNameNode`. -/
theorem removePathMethodNameNode_conventional_witness :
    removePathMethodNameNode "index.handler".toList = some "index".toList ∧
      removePathMethodNameNode "src/handlers/index.handler".toList =
        some "src/handlers/index".toList ∧
      removePathMethodNameNode "src/index.test.handler".toList = some "src/index".toList ∧
      removePathMethodNameNode "src/my-handler.test.handler".toList =
        some "src/my-handler".toList :=
  ⟨removePathMethodNameNode_conventional [] "index.handler".toList
      (by decide) (by decide) (by decide) (by decide) (by decide),
    removePathMethodNameNode_conventional ["src".toList, "handlers".toList]
      "index.handler".toList (by decide) (by decide) (by decide) (by decide) (by decide),
    removePathMethodNameNode_conventional ["src".toList] "index.test.handler".toList
      (by decide) (by decide) (by decide) (by decide) (by decide),
    removePathMethodNameNode_conventional ["src".toList] "my-handler.test.handler".toList
      (by decide) (by decide) (by decide) (by decide) (by decide)⟩

/-! ## The generic split -/

theorem removePathMethodName_at_final_dot (A M : GoString) (hM : '.' ∉ M) :
    removePathMethodName (A ++ '.' :: M) = some (dotsToSlashes A) := by
  rw [removePathMethodName_total, strings_Split_append, strings_Split_no_sep M '.' hM]
  simp only [List.length_append, List.length_singleton, Nat.add_sub_cancel]
  rw [List.take_left', strings_Join_Split_map]
  · rfl
  · rfl

theorem exists_final_dot (H : GoString) (hH : '.' ∈ H) :
    ∃ A M, H = A ++ '.' :: M ∧ '.' ∉ M := by
  obtain ⟨as, bs, hrev, has⟩ := List.eq_append_cons_of_mem (List.mem_reverse.mpr hH)
  refine ⟨bs.reverse, as.reverse, ?_, ?_⟩
  · have := congrArg List.reverse hrev
    simpa using this
  · simpa using has

/-- C12: a handler identifier containing a `.` has a final `.`, and its generic
split is the portion before that final `.` with every `.` in it replaced by
`/`. -/
theorem removePathMethodName_replaces_dots (H : GoString) (hH : '.' ∈ H) :
    (∃ A M, H = A ++ '.' :: M ∧ '.' ∉ M) ∧
      ∀ A M, H = A ++ '.' :: M → '.' ∉ M → removePathMethodName H = some (dotsToSlashes A) := by
  refine ⟨exists_final_dot H hH, ?_⟩
  intro A M hAM hM
  rw [hAM]
  exact removePathMethodName_at_final_dot A M hM

/-- C12 on rows of `TestRemovePathMethodName`: `src.test.index.handler` gives
`src/test/index` and `src/handlers/index.handler` gives `src/handlers/index`. -/
theorem removePathMethodName_replaces_dots_witness :
    removePathMethodName "src.test.index.handler".toList = some "src/test/index".toList ∧
      removePathMethodName "src/handlers/index.handler".toList =
        some "src/handlers/index".toList ∧
      removePathMethodName "index.handler".toList = some "index".toList :=
  ⟨(removePathMethodName_replaces_dots "src.test.index.handler".toList (by decide)).2
      "src.test.index".toList "handler".toList rfl (by decide),
    (removePathMethodName_replaces_dots "src/handlers/index.handler".toList (by decide)).2
      "src/handlers/index".toList "handler".toList rfl (by decide),
    (removePathMethodName_replaces_dots "index.handler".toList (by decide)).2
      "index".toList "handler".toList rfl (by decide)⟩

theorem removePathMethodName_empty_of_no_dot (H : GoString) (hH : '.' ∉ H) :
    removePathMethodName H = some [] := by
  rw [removePathMethodName_total, strings_Split_no_sep H '.' hH]
  rfl

/-- C13: for a handler identifier without `.` the generic split is the empty
string, `pathFormatter` then gives the deployment root followed by `/.` and the
extension, and that path is the one candidate `check` probes for a runtime that
is not Node whose true handler has no `.`. -/
theorem removePathMethodName_no_dot (H : GoString) (hH : '.' ∉ H) :
    removePathMethodName H = some [] ∧
      (∀ (E : GoString) (w : World),
        (pathFormatter [] E w).value = some (w.handlerPath ++ "/.".toList ++ E)) ∧
      (∀ (Node : GoString) (r : runtimeConfig) (h : handlerConfigs) (w : World),
        r.language ≠ Node → noBypass h w → (getTrueHandler r h w).value = some H →
        check Node r h w =
          ⟨bypassTrace h ++ (getTrueHandler r h w).trace ++
              [Event.stat (w.handlerPath ++ "/.".toList ++ r.fileType)],
            some (w.PathExists (w.handlerPath ++ "/.".toList ++ r.fileType))⟩) := by
  refine ⟨removePathMethodName_empty_of_no_dot H hH, ?_, ?_⟩
  · intro E w
    rw [pathFormatter_run]
    simp
  · intro Node r h w hl hb hT
    rw [check_run_other Node r h w hb hl H [] hT (removePathMethodName_empty_of_no_dot H hH)]
    simp

/-- C13 on the row `index` of `TestRemovePathMethodName`, on the empty
identifier, and the candidate of the Python runtime. -/
theorem removePathMethodName_no_dot_witness :
    removePathMethodName "index".toList = some [] ∧ removePathMethodName [] = some [] ∧
      (pathFormatter [] "py".toList emptyWorld).value = some "/tmp/x/var/task/.py".toList :=
  ⟨(removePathMethodName_no_dot "index".toList (by decide)).1,
    (removePathMethodName_no_dot [] (by decide)).1,
    (removePathMethodName_no_dot [] (by decide)).2.1 "py".toList emptyWorld⟩

/-! ## Node candidates and the path format -/

/-- C14: for the Node runtime with `TestingOverride` true, when the Node split
of the true handler is `P` and one of the candidates made of the deployment
root, `/`, `P` and `.js`, `.cjs` or `.mjs` exists, `handlerCheck` returns
success, whichever candidate it is and whatever the others are. -/
theorem handlerCheck_node_any_candidate (Node : GoString) (ctx : Context)
    (conf : Configuration) (reg : RegistrationResponse) (r : runtimeConfig) (w : World)
    (T P : GoString) (hTO : conf.TestingOverride = true) (hl : r.language = Node)
    (hT : (getTrueHandler r ⟨reg.Handler, conf⟩ w).value = some T)
    (hP : removePathMethodNameNode T = some P)
    (hex : w.PathExists (w.handlerPath ++ "/".toList ++ P ++ ".js".toList) = true ∨
      w.PathExists (w.handlerPath ++ "/".toList ++ P ++ ".cjs".toList) = true ∨
      w.PathExists (w.handlerPath ++ "/".toList ++ P ++ ".mjs".toList) = true) :
    (handlerCheck Node ctx conf reg r w).value = some GoError.nil := by
  rw [handlerCheck_run]
  by_cases hlang : r.language = []
  · simp [hlang]
  · rw [check_run_node Node r ⟨reg.Handler, conf⟩ w (Or.inl hTO) hl T P hT hP]
    have hjs : candidate w P "js".toList = w.handlerPath ++ "/".toList ++ P ++ ".js".toList := by
      simp [candidate]
    have hcjs : candidate w P "cjs".toList =
        w.handlerPath ++ "/".toList ++ P ++ ".cjs".toList := by
      simp [candidate]
    have hmjs : candidate w P "mjs".toList =
        w.handlerPath ++ "/".toList ++ P ++ ".mjs".toList := by
      simp [candidate]
    have hv : (w.PathExists (candidate w P "js".toList) ||
        w.PathExists (candidate w P "mjs".toList) ||
        w.PathExists (candidate w P "cjs".toList) || w.PathExists P) = true := by
      rw [hjs, hcjs, hmjs]
      rcases hex with h | h | h <;> rw [h] <;> simp
    rw [hv]
    simp [hlang]

/-- C14 on `TestHandlerCheckMJS` and `TestHandlerCheckCJS`: only `app.mjs`, or
only `app.cjs`, is in the bundle and the check succeeds. -/
theorem handlerCheck_node_any_candidate_witness :
    (handlerCheck "node".toList () ⟨"Undefined".toList, true⟩ ⟨"path/to/app.handler".toList⟩
        exampleNode (withFiles emptyWorld ["/tmp/x/var/task/path/to/app.mjs".toList])).value =
        some GoError.nil ∧
      (handlerCheck "node".toList () ⟨"Undefined".toList, true⟩ ⟨"path/to/app.handler".toList⟩
        exampleNode (withFiles emptyWorld ["/tmp/x/var/task/path/to/app.cjs".toList])).value =
        some GoError.nil :=
  ⟨handlerCheck_node_any_candidate "node".toList () ⟨"Undefined".toList, true⟩
      ⟨"path/to/app.handler".toList⟩ exampleNode
      (withFiles emptyWorld ["/tmp/x/var/task/path/to/app.mjs".toList])
      "path/to/app.handler".toList "path/to/app".toList rfl rfl (by decide) (by decide)
      (Or.inr (Or.inr (by decide))),
    handlerCheck_node_any_candidate "node".toList () ⟨"Undefined".toList, true⟩
      ⟨"path/to/app.handler".toList⟩ exampleNode
      (withFiles emptyWorld ["/tmp/x/var/task/path/to/app.cjs".toList])
      "path/to/app.handler".toList "path/to/app".toList rfl rfl (by decide) (by decide)
      (Or.inr (Or.inl (by decide)))⟩

/-- C15: `pathFormatter` returns the deployment root of the process at the time
of the call, followed by `/`, the split result, `.` and the extension, and
touches nothing; with the root at its default `/var/task`,
`pathFormatter("path/to/app", "js")` is `/var/task/path/to/app.js`. -/
theorem pathFormatter_format (P E : GoString) (w : World) :
    pathFormatter P E w = ⟨[], some (w.handlerPath ++ "/".toList ++ P ++ ".".toList ++ E)⟩ ∧
      (pathFormatter "path/to/app".toList "js".toList
        { w with handlerPath := handlerPath_default }).value =
        some "/var/task/path/to/app.js".toList := by
  constructor
  · rw [pathFormatter_run]
    simp
  · rw [pathFormatter_run]
    rfl

/-! ## The two bypass sites -/

/-- C16, as stated, fails: on the native platform (`AWS_EXECUTION_ENV` begins
with `aws_lambda`) with `/.dockerenv` present and `TestingOverride` false,
`check` gets past its own bypass and `getTrueHandler` takes its first branch:
it returns the declared handler, here the wrapper, not `NRHandler`. -/
theorem getTrueHandler_first_branch_reached_past_bypass :
    ¬ ((⟨"nr.handler".toList, false⟩ : Configuration).TestingOverride = false →
        noBypass ⟨"wrapper.handler".toList, ⟨"nr.handler".toList, false⟩⟩ nativeDockerWorld →
        ¬ firstBranchTaken ⟨"wrapper.handler".toList, ⟨"nr.handler".toList, false⟩⟩
          nativeDockerWorld) ∧
      getTrueHandler ⟨"python".toList, "wrapper.handler".toList, "py".toList⟩
          ⟨"wrapper.handler".toList, ⟨"nr.handler".toList, false⟩⟩ nativeDockerWorld =
        ⟨[Event.getenv "NEW_RELIC_USE_ESM".toList, Event.stat "/.dockerenv".toList],
          some "wrapper.handler".toList⟩ ∧
      check "node".toList ⟨"python".toList, "wrapper.handler".toList, "py".toList⟩
          ⟨"wrapper.handler".toList, ⟨"nr.handler".toList, false⟩⟩ nativeDockerWorld =
        ⟨[Event.getenv "NEW_RELIC_USE_ESM".toList, Event.getenv "AWS_EXECUTION_ENV".toList,
            Event.getenv "NEW_RELIC_USE_ESM".toList, Event.stat "/.dockerenv".toList,
            Event.stat "/tmp/x/var/task/wrapper.py".toList],
          some false⟩ := by
  decide

/-- C16, amended: with `TestingOverride` true the first branch of
`getTrueHandler` is never taken; with `TestingOverride` false, once `check` is
past its own bypass, the ESM test of that branch fails and the branch is taken
exactly when `/.dockerenv` exists.  When the branch is taken the declared
handler is returned and no warning is logged; otherwise the wrapper
comparison decides. -/
theorem getTrueHandler_first_branch_iff_dockerenv (r : runtimeConfig) (h : handlerConfigs)
    (w : World) :
    (h.conf.TestingOverride = true → ¬ firstBranchTaken h w) ∧
      (h.conf.TestingOverride = false → noBypass h w →
        strings_ToLower ((w.env "NEW_RELIC_USE_ESM".toList).getD []) ≠ "true".toList ∧
          (firstBranchTaken h w ↔ w.PathExists "/.dockerenv".toList = true)) ∧
      (firstBranchTaken h w →
        (getTrueHandler r h w).value = some h.handlerName ∧
          ∀ args, Event.logln args ∉ (getTrueHandler r h w).trace) ∧
      (¬ firstBranchTaken h w →
        (getTrueHandler r h w).value =
          some (if h.handlerName ≠ r.wrapperName then h.handlerName else h.conf.NRHandler)) := by
  refine ⟨?_, ?_, ?_, ?_⟩
  · intro hTO hf
    rw [hf.1] at hTO
    cases hTO
  · intro hTO hb
    rcases hb with hb | ⟨hesm, _⟩
    · rw [hTO] at hb
      cases hb
    · refine ⟨hesm, ?_⟩
      constructor
      · rintro ⟨_, hf | hf⟩
        · exact absurd hf hesm
        · exact hf
      · intro hd
        exact ⟨hTO, Or.inr hd⟩
  · rintro ⟨hTO, hf⟩
    rw [getTrueHandler_run, if_pos hTO]
    by_cases hesm : strings_ToLower ((w.env "NEW_RELIC_USE_ESM".toList).getD []) = "true".toList
    · rw [if_pos hesm]
      refine ⟨rfl, ?_⟩
      intro args hm
      simp at hm
    · have hd : w.PathExists "/.dockerenv".toList = true := hf.resolve_left hesm
      rw [if_neg hesm, if_pos hd]
      refine ⟨rfl, ?_⟩
      intro args hm
      simp at hm
  · intro hnf
    rw [getTrueHandler_run]
    unfold firstBranchTaken at hnf
    cases hTO : h.conf.TestingOverride
    · have h1 : strings_ToLower ((w.env "NEW_RELIC_USE_ESM".toList).getD []) ≠ "true".toList :=
        fun hc => hnf ⟨hTO, Or.inl hc⟩
      have h2 : w.PathExists "/.dockerenv".toList ≠ true := fun hc => hnf ⟨hTO, Or.inr hc⟩
      rw [if_pos rfl, if_neg h1, if_neg h2]
      split_ifs <;> rfl
    · rw [if_neg (by simp)]
      split_ifs <;> rfl

/-- C16, amended, on the native process with `/.dockerenv`: the first branch is
taken and the declared handler is returned. -/
theorem getTrueHandler_first_branch_iff_dockerenv_witness :
    firstBranchTaken ⟨"wrapper.handler".toList, ⟨"nr.handler".toList, false⟩⟩ nativeDockerWorld ∧
      (getTrueHandler ⟨"python".toList, "wrapper.handler".toList, "py".toList⟩
        ⟨"wrapper.handler".toList, ⟨"nr.handler".toList, false⟩⟩ nativeDockerWorld).value =
        some "wrapper.handler".toList :=
  ⟨((getTrueHandler_first_branch_iff_dockerenv
        ⟨"python".toList, "wrapper.handler".toList, "py".toList⟩
        ⟨"wrapper.handler".toList, ⟨"nr.handler".toList, false⟩⟩ nativeDockerWorld).2.1 rfl
        (by decide)).2.mpr (by decide),
    ((getTrueHandler_first_branch_iff_dockerenv
        ⟨"python".toList, "wrapper.handler".toList, "py".toList⟩
        ⟨"wrapper.handler".toList, ⟨"nr.handler".toList, false⟩⟩ nativeDockerWorld).2.2.1
        (by decide)).1⟩

/-! ## When the Node split aborts -/

theorem strings_Index_from_found (sub : GoString) :
    ∀ (s : GoString) (i : Nat), sub <:+: s →
      ∃ n, n ≤ s.length ∧ strings_Index_from sub s i = ((i + n : Nat) : Int) := by
  intro s
  induction s with
  | nil =>
    intro i hin
    have hsub : sub = [] := by simpa using hin
    subst hsub
    exact ⟨0, by simp, by simp [strings_Index_from]⟩
  | cons c cs ih =>
    intro i hin
    by_cases hp : sub.isPrefixOf (c :: cs) = true
    · exact ⟨0, by simp, by simp [strings_Index_from, hp]⟩
    · have hnp : ¬ sub <+: c :: cs := fun h => hp (List.isPrefixOf_iff_prefix.mpr h)
      have htail : sub <:+: cs := (List.infix_cons_iff.mp hin).resolve_left hnp
      obtain ⟨n, hn, hidx⟩ := ih (i + 1) htail
      refine ⟨n + 1, by simpa using hn, ?_⟩
      rw [strings_Index_from, if_neg hp, hidx]
      congr 1
      omega

theorem filepath_Base_occurs (H : GoString) (hH : H ≠ []) : filepath_Base H <:+: H := by
  unfold filepath_Base
  simp only [hH, if_false]
  have hstrip : (H.reverse.dropWhile (fun c => c == '/')).reverse <+: H := by
    have := (List.dropWhile_suffix (fun c => c == '/') (l := H.reverse))
    simpa using List.reverse_prefix.mpr this
  by_cases hlast : ((H.reverse.dropWhile (fun c => c == '/')).reverse.reverse.takeWhile
      (fun c => c != '/')).reverse = []
  · rw [if_pos hlast]
    rcases H with _ | ⟨x, xs⟩
    · exact absurd rfl hH
    · have hx : x = '/' := by
        by_contra hne
        rcases hd : (x :: xs).reverse.dropWhile (fun c => c == '/') with _ | ⟨y, ys⟩
        · have hall := List.dropWhile_eq_nil_iff.mp hd x (by simp)
          exact hne (by simpa using hall)
        · have hy := List.head_dropWhile_not (fun c => c == '/') (x :: xs).reverse
            (by rw [hd]; simp)
          simp only [hd, List.head_cons] at hy
          rw [hd] at hlast
          have hy' : (y != '/') = true := by simpa using hy
          simp [List.takeWhile, hy'] at hlast
      rw [hx]
      exact (List.prefix_iff_eq_take.mpr (by simp)).isInfix
  · rw [if_neg hlast]
    have hsuf : ((H.reverse.dropWhile (fun c => c == '/')).reverse.reverse.takeWhile
        (fun c => c != '/')).reverse <:+ (H.reverse.dropWhile (fun c => c == '/')).reverse := by
      have := List.takeWhile_prefix (fun c => c != '/')
        (l := (H.reverse.dropWhile (fun c => c == '/')).reverse.reverse)
      simpa using List.reverse_suffix.mpr this
    exact hsuf.isInfix.trans hstrip.isInfix

theorem removePathMethodNameNode_returns (H : GoString) (hH : H ≠ []) :
    ∃ P, removePathMethodNameNode H = some P := by
  obtain ⟨n, hn, hidx⟩ := strings_Index_from_found (filepath_Base H) H 0 (filepath_Base_occurs H hH)
  have hslice : sliceTo H (strings_Index H (filepath_Base H)) = some (H.take n) := by
    unfold strings_Index
    rw [hidx]
    simp [sliceTo, hn]
  unfold removePathMethodNameNode
  simp only [hslice, indexFirst, strings_Split_head, Option.bind_eq_bind, Option.some_bind,
    Option.pure_def]
  exact ⟨_, rfl⟩

/-- C17: the Node split aborts exactly on the empty handler identifier.  For a
non-empty identifier the basename computed by `filepath.Base` occurs in it, so
the slice is in range; for the empty one the basename is `.`, its index is
`-1` and the slice expression panics. -/
theorem removePathMethodNameNode_aborts_iff_empty (H : GoString) :
    (removePathMethodNameNode H = none ↔ H = []) ∧
      (H ≠ [] → filepath_Base H <:+: H) ∧
      (filepath_Base [] = ['.'] ∧ strings_Index [] ['.'] = -1 ∧ sliceTo [] (-1) = none) := by
  refine ⟨?_, filepath_Base_occurs H, by decide⟩
  constructor
  · intro hnone
    by_contra hH
    obtain ⟨P, hP⟩ := removePathMethodNameNode_returns H hH
    rw [hP] at hnone
    cases hnone
  · rintro rfl
    decide

/-- C17 on `/`, on `index.handler` and on the empty identifier. -/
theorem removePathMethodNameNode_aborts_iff_empty_witness :
    removePathMethodNameNode [] = none ∧ filepath_Base "/".toList <:+: "/".toList ∧
      removePathMethodNameNode "index.handler".toList ≠ none :=
  ⟨(removePathMethodNameNode_aborts_iff_empty []).1.mpr rfl,
    (removePathMethodNameNode_aborts_iff_empty "/".toList).2.1 (by decide),
    fun hnone => absurd ((removePathMethodNameNode_aborts_iff_empty
      "index.handler".toList).1.mp hnone) (by decide)⟩

/-! ## Agreement of the two splits -/

theorem not_prefix_before_dot (A m : GoString) (sn : GoString) (hdot : '.' ∉ A ++ sn) (i : Nat)
    (hi : i < A.length) : ¬ (sn ++ '.' :: m) <+: (A ++ (sn ++ '.' :: m)).drop i := by
  rintro ⟨t, ht⟩
  have hfull : (A ++ sn) ++ '.' :: m = ((A ++ (sn ++ '.' :: m)).take i ++ sn) ++ '.' :: (m ++ t) := by
    have h1 := (List.take_append_drop i (A ++ (sn ++ '.' :: m))).symm
    rw [← ht] at h1
    simpa using h1
  have hlen : ((A ++ (sn ++ '.' :: m)).take i ++ sn).length = i + sn.length := by
    simp
    omega
  have hlt : i + sn.length < (A ++ sn).length := by
    simp
    omega
  have hget := congrArg (fun l => l[i + sn.length]?) hfull
  simp only at hget
  have h1 : ((A ++ sn) ++ '.' :: m)[i + sn.length]? = (A ++ sn)[i + sn.length]? :=
    List.getElem?_append_left hlt
  have h2 : (((A ++ (sn ++ '.' :: m)).take i ++ sn) ++ '.' :: (m ++ t))[i + sn.length]? =
      some '.' := by
    rw [List.getElem?_append_right (by rw [hlen]), hlen]
    simp
  rw [h1, h2] at hget
  exact hdot (List.getElem?_mem hget)

theorem dotsToSlashes_no_dot (A : GoString) (hA : '.' ∉ A) : dotsToSlashes A = A := by
  unfold dotsToSlashes
  induction A with
  | nil => rfl
  | cons x xs ih =>
    have hx : x ≠ '.' := fun h => hA (by simp [h])
    have hxs : '.' ∉ xs := fun h => hA (by simp [h])
    simp [hx, ih hxs]

theorem dirOf_no_dot (segs : List GoString) (hsegs : ∀ seg ∈ segs, '.' ∉ seg) :
    '.' ∉ dirOf segs := by
  induction segs with
  | nil => simp [dirOf]
  | cons a rest ih =>
    have ha := hsegs a (by simp)
    have hrest := ih (fun seg hm => hsegs seg (List.mem_cons_of_mem a hm))
    simp only [dirOf, List.map_cons, List.flatten_cons, List.mem_append, not_or] at hrest ⊢
    exact ⟨by simpa using ha, hrest⟩

/-- C18: for a handler spelled `s1/.../sn.m` with at least one segment, every
segment not empty, and no `.` or `/` inside a segment or inside `m`, the Node
split and the generic split both return `s1/.../sn`. -/
theorem splits_agree_on_conventional (segs : List GoString) (sn m : GoString)
    (hsegs : ∀ seg ∈ segs ++ [sn], seg ≠ [] ∧ '.' ∉ seg ∧ '/' ∉ seg)
    (hm : '.' ∉ m ∧ '/' ∉ m) :
    removePathMethodNameNode (strings_Join (segs ++ [sn]) ['/'] ++ '.' :: m) =
        some (strings_Join (segs ++ [sn]) ['/']) ∧
      removePathMethodName (strings_Join (segs ++ [sn]) ['/'] ++ '.' :: m) =
        some (strings_Join (segs ++ [sn]) ['/']) := by
  obtain ⟨hsn1, hsn2, hsn3⟩ := hsegs sn (by simp)
  have hsegs' : ∀ seg ∈ segs, seg ≠ [] ∧ '.' ∉ seg ∧ '/' ∉ seg :=
    fun seg hmem => hsegs seg (List.mem_append_left _ hmem)
  have hnodot : '.' ∉ dirOf segs ++ sn := by
    intro hmem
    rcases List.mem_append.mp hmem with h | h
    · exact dirOf_no_dot segs (fun seg hs => (hsegs' seg hs).2.1) h
    · exact hsn2 h
  constructor
  · have hplain : ∀ seg ∈ segs, plainSegment seg := by
      intro seg hmem
      obtain ⟨h1, h2, h3⟩ := hsegs' seg hmem
      refine ⟨h1, h3, ?_, ?_⟩
      · intro h
        exact h2 (by simp [h])
      · intro h
        exact h2 (by simp [h])
    have hB : sn ++ '.' :: m ≠ [] := by simp
    have hslash : '/' ∉ sn ++ '.' :: m := by
      intro hmem
      rcases List.mem_append.mp hmem with h | h
      · exact hsn3 h
      · rcases List.mem_cons.mp h with h | h
        · cases h
        · exact hm.2 h
    have hhead : (sn ++ '.' :: m).head? ≠ some '.' := by
      rcases sn with _ | ⟨x, xs⟩
      · exact absurd rfl hsn1
      · have hx : x ≠ '.' := fun h => hsn2 (by simp [h])
        simpa using hx
    have htake : (sn ++ '.' :: m).takeWhile (fun c => c != '.') = sn := by
      rw [List.takeWhile_append_of_pos]
      · simp [List.takeWhile]
      · intro c hc
        have : c ≠ '.' := fun h => hsn2 (h ▸ hc)
        simpa using this
    have key := removePathMethodNameNode_plain segs (sn ++ '.' :: m) hplain hB hslash hhead
      (fun i hi => not_prefix_before_dot (dirOf segs) m sn hnodot i hi)
    rw [htake] at key
    rw [strings_Join_snoc, List.append_assoc]
    exact key
  · rw [removePathMethodName_at_final_dot _ m hm.1, dotsToSlashes_no_dot]
    rw [strings_Join_snoc]
    exact hnodot

/-- C18 on the handler of `TestRuntimeMethods`, `path/to/app.handler`: both
splits give `path/to/app`. -/
theorem splits_agree_on_conventional_witness :
    removePathMethodNameNode "path/to/app.handler".toList = some "path/to/app".toList ∧
      removePathMethodName "path/to/app.handler".toList = some "path/to/app".toList :=
  splits_agree_on_conventional ["path".toList, "to".toList] "app".toList "handler".toList
    (by decide) (by decide)

end HandlerCheck
